import Mathlib

/-!
Verification of the `stem` Tor-controller library's exit-policy evaluator
(`src/stem/exit_policy.py`) and control-reply tokenizer
(`src/stem/response/__init__.py`) against its natural-language specification.

Python strings are shallowly embedded as `List Char`; fallible Python code
(raising `ValueError`, `IndexError`, `ProtocolError`) is embedded as
`Except PyErr`.  The helper functions of `stem.util.connection` are not part
of the sources under verification, so they are modelled from the spec; every
such definition carries a doc comment starting with `Modelled from the spec:`.
-/

set_option maxHeartbeats 1600000

namespace StemSpec

/-- Python strings are modelled as lists of characters. -/
abbrev Str := List Char

/-- Kinds of Python exceptions raised by the embedded code. -/
inductive PyErr where
  | valueError
  | indexError
  | protocolError
  | typeError
  deriving DecidableEq, Repr

deriving instance DecidableEq for Except

/-- Characters stripped by Python's `str.strip` / `str.lstrip` (whitespace). -/
def isPySpace (c : Char) : Bool :=
  c = ' ' || c = '\t' || c = '\n' || c = '\r' || c = '\x0b' || c = '\x0c'

/-- Python `str.lstrip()`. -/
def pyLstrip (s : Str) : Str := s.dropWhile isPySpace

/-- Python `str.rstrip()`. -/
def pyRstrip (s : Str) : Str := (s.reverse.dropWhile isPySpace).reverse

/-- Python `str.strip()`. -/
def pyStrip (s : Str) : Str := pyRstrip (pyLstrip s)

/-- Python `str.isdigit()`: non-empty and all (ASCII) digits. -/
def isDigitStr (s : Str) : Bool := !s.isEmpty && s.all (·.isDigit)

/-- Python `int(s)` on a digit string. -/
def parseNat (s : Str) : Nat := s.foldl (fun a c => 10 * a + (c.toNat - 48)) 0

/-- Fuel-driven helper for `natToStr` (structural recursion so that the
kernel can evaluate it). -/
def natToStrAux : Nat → Nat → Str
  | 0, _ => []
  | fuel + 1, n =>
    if n < 10 then [Char.ofNat (48 + n)]
    else natToStrAux fuel (n / 10) ++ [Char.ofNat (48 + n % 10)]

/-- Decimal rendering of a natural number, as Python's `"%i"` produces it. -/
def natToStr (n : Nat) : Str := natToStrAux (n + 1) n

/-- The fuel of `natToStrAux` does not matter once it exceeds the value. -/
theorem natToStrAux_fuel {f1 f2 n : Nat} (h1 : n < f1) (h2 : n < f2) :
    natToStrAux f1 n = natToStrAux f2 n := by
  induction f1 generalizing f2 n with
  | zero => omega
  | succ g ih =>
    cases f2 with
    | zero => omega
    | succ k =>
      show natToStrAux (g + 1) n = natToStrAux (k + 1) n
      rw [natToStrAux, natToStrAux]
      by_cases hn : n < 10
      · rw [if_pos hn, if_pos hn]
      · rw [if_neg hn, if_neg hn]
        have hdiv : n / 10 < n := Nat.div_lt_self (by omega) (by omega)
        rw [@ih k (n / 10) (by omega) (by omega)]

/-- Unfolding rule of `natToStr`. -/
theorem natToStr_unfold (n : Nat) :
    natToStr n =
      if n < 10 then [Char.ofNat (48 + n)]
      else natToStr (n / 10) ++ [Char.ofNat (48 + n % 10)] := by
  show natToStrAux (n + 1) n = _
  rw [natToStrAux]
  by_cases hn : n < 10
  · rw [if_pos hn, if_pos hn]
  · rw [if_neg hn, if_neg hn]
    have hdiv : n / 10 < n := Nat.div_lt_self (by omega) (by omega)
    rw [@natToStrAux_fuel n (n / 10 + 1) (n / 10) (by omega) (by omega)]
    rfl

/-- Python `s.upper()` on a single character. -/
def upChar (c : Char) : Char :=
  if 'a' ≤ c ∧ c ≤ 'z' then Char.ofNat (c.toNat - 32) else c

/-- Python `s.upper()`. -/
def pyUpper (s : Str) : Str := s.map upChar

/-- Python `s.split(sep, 1)` when `sep` occurs: the first occurrence of `sep`
splits the string.  `none` when `sep` does not occur. -/
def splitFirst (sep : Char) : Str → Option (Str × Str)
  | [] => none
  | c :: rest =>
    if c = sep then some ([], rest)
    else
      match splitFirst sep rest with
      | some (a, b) => some (c :: a, b)
      | none => none

/-- Python `s.rsplit(sep, 1)` when `sep` occurs: the last occurrence of `sep`
splits the string. -/
def splitLast (sep : Char) (s : Str) : Option (Str × Str) :=
  match splitFirst sep s.reverse with
  | some (a, b) => some (b.reverse, a.reverse)
  | none => none

/-- Python `s.split(sep)` (full split, keeping empty pieces). -/
def splitAll (sep : Char) : Str → List Str
  | [] => [[]]
  | c :: rest =>
    if c = sep then [] :: splitAll sep rest
    else
      match splitAll sep rest with
      | p :: ps => (c :: p) :: ps
      | [] => [[c]]

/-- Python `sep.join(parts)` for a one-character separator. -/
def joinSep (sep : Char) : List Str → Str
  | [] => []
  | [p] => p
  | p :: ps => p ++ sep :: joinSep sep ps

/-- Python `sep.join(parts)` for a multi-character separator. -/
def joinSepStr (sep : Str) : List Str → Str
  | [] => []
  | [p] => p
  | p :: ps => p ++ sep ++ joinSepStr sep ps

/-- Python `pat in s` (substring containment). -/
def containsSub (pat : Str) : Str → Bool
  | [] => pat.isEmpty
  | c :: t => pat.isPrefixOf (c :: t) || containsSub pat t

/-- Python `s.count("::")`: non-overlapping occurrences of two colons,
scanning left to right. -/
def countCC : Str → Nat
  | [] => 0
  | [_] => 0
  | c :: d :: t => if c = ':' ∧ d = ':' then countCC t + 1 else countCC (d :: t)

/-- No two adjacent colons anywhere in the string. -/
def noCC : Str → Bool
  | [] => true
  | [_] => true
  | c :: d :: t => !(c = ':' ∧ d = ':') && noCC (d :: t)

/-- Index of the first occurrence of a character, scanning left to right. -/
def findCharIdx (q : Char) : Str → Option Nat
  | [] => none
  | c :: rest => if c = q then some 0 else (findCharIdx q rest).map (· + 1)

/-- Python `s.find(q, start)` (as an `Option` instead of `-1`). -/
def pyFindChar (line : Str) (q : Char) (start : Nat) : Option Nat :=
  (findCharIdx q (line.drop start)).map (· + start)

/-- Dropping a prefix by a predicate never lengthens a list
(termination helper). -/
theorem dropWhile_len_le (p : Char → Bool) (l : Str) :
    (l.dropWhile p).length ≤ l.length := by
  induction l with
  | nil => simp
  | cons c t ih =>
    by_cases h : p c <;> simp [List.dropWhile_cons, h] <;> omega

/-- An index returned by `findCharIdx` is inside the list
(termination helper). -/
theorem findCharIdx_lt {q : Char} {s : Str} {j : Nat}
    (h : findCharIdx q s = some j) : j < s.length := by
  induction s generalizing j with
  | nil => simp [findCharIdx] at h
  | cons c t ih =>
    rw [findCharIdx] at h
    by_cases hc : c = q
    · rw [if_pos hc] at h
      simp only [Option.some.injEq] at h
      subst h
      simp only [List.length_cons]
      omega
    · rw [if_neg hc] at h
      cases ht : findCharIdx q t with
      | none => rw [ht] at h; simp at h
      | some k =>
        rw [ht] at h
        simp only [Option.map_some', Option.some.injEq] at h
        subst h
        have := ih ht
        simp only [List.length_cons]
        omega

/-- An index returned by `pyFindChar` lies between `start` and the length
(termination helper). -/
theorem pyFindChar_bounds {line : Str} {q : Char} {start j : Nat}
    (h : pyFindChar line q start = some j) : start ≤ j ∧ j < line.length := by
  unfold pyFindChar at h
  cases hf : findCharIdx q (line.drop start) with
  | none => simp [hf] at h
  | some k =>
    rw [hf] at h
    simp only [Option.map_some', Option.some.injEq] at h
    subst h
    have := findCharIdx_lt hf
    simp only [List.length_drop] at this
    omega

/-- A successful `splitFirst` reconstructs the input, and the separator does
not occur in the left part. -/
theorem splitFirst_eq {sep : Char} {s a b : Str}
    (h : splitFirst sep s = some (a, b)) : s = a ++ sep :: b ∧ sep ∉ a := by
  induction s generalizing a b with
  | nil => simp [splitFirst] at h
  | cons c t ih =>
    rw [splitFirst] at h
    by_cases hc : c = sep
    · rw [if_pos hc] at h
      simp only [Option.some.injEq, Prod.mk.injEq] at h
      obtain ⟨rfl, rfl⟩ := h
      simp [hc]
    · rw [if_neg hc] at h
      cases ht : splitFirst sep t with
      | none => rw [ht] at h; simp at h
      | some ab =>
        obtain ⟨a2, b2⟩ := ab
        rw [ht] at h
        simp only [Option.some.injEq, Prod.mk.injEq] at h
        obtain ⟨rfl, rfl⟩ := h
        obtain ⟨he, hm⟩ := ih ht
        refine ⟨by simp [he], ?_⟩
        simp only [List.mem_cons]
        rintro (rfl | hmem)
        · exact hc rfl
        · exact hm hmem

/-- Python `s.replace(pat, repl)` for a non-empty pattern: replaces all
non-overlapping occurrences, scanning left to right. -/
def replaceAll (pat repl : Str) : Str → Str
  | [] => []
  | c :: t =>
    if pat.isPrefixOf (c :: t) ∧ ¬ pat.isEmpty then
      repl ++ replaceAll pat repl ((c :: t).drop pat.length)
    else
      c :: replaceAll pat repl t
termination_by s => s.length
decreasing_by
  all_goals simp_all [List.isEmpty_iff]
  rename_i h
  have : pat.length ≠ 0 := by simpa [List.length_eq_zero] using h.2
  omega

/-! ### Modelled `stem.util.connection`

The module `stem/util/connection.py` is code of this repository that is not
under `src/` (only its callers in `stem/exit_policy.py` are).  The following
definitions model it from the spec's data-model section: dotted-quad IPv4
addresses, colon-grouped IPv6 addresses with `::` zero collapse, ports
1..65535, IPv4 mask-bits 0..32, IPv6 mask-bits 0..128. -/

/-- Modelled from the spec: `stem.util.connection.is_valid_port` on an
integer (port 1..65535, with zero allowed when requested). -/
def is_valid_port_nat (p : Nat) (allow_zero : Bool) : Bool :=
  if allow_zero ∧ p = 0 then true else 0 < p && p < 65536

/-- Modelled from the spec: `stem.util.connection.is_valid_port` on a string
(digits only, no leading zero, value in range). -/
def is_valid_port_str (entry : Str) (allow_zero : Bool) : Bool :=
  if ¬ isDigitStr entry then false
  else if entry.head? = some '0' ∧ entry.length > 1 then false
  else is_valid_port_nat (parseNat entry) allow_zero

/-- One decimal octet of a dotted-quad IPv4 address: non-empty digits, no
leading zero, value at most 255. -/
def isOctet (s : Str) : Bool :=
  !s.isEmpty && s.all (·.isDigit) &&
    !(s.head? = some '0' && s.length > 1) && parseNat s ≤ 255

/-- Modelled from the spec: `stem.util.connection.is_valid_ip_address`
(an IPv4 address in dotted-quad format: four period-separated octets). -/
def is_valid_ip_address (s : Str) : Bool :=
  let parts := splitAll '.' s
  parts.length = 4 && parts.all isOctet

/-- Hexadecimal digit characters (both cases). -/
def isHexDigitChar (c : Char) : Bool :=
  c.isDigit || ('a' ≤ c && c ≤ 'f') || ('A' ≤ c && c ≤ 'F')

/-- One 16-bit group of an IPv6 address: at most four hex digits
(possibly none, for the groups adjacent to a `::` collapse). -/
def isHexGroup (s : Str) : Bool := s.length ≤ 4 && s.all isHexDigitChar

/-- Modelled from the spec: `stem.util.connection.is_valid_ipv6_address`
(eight colon-separated groups of at most four hex digits, with at most one
`::` collapse standing for the missing groups). -/
def is_valid_ipv6_address (addr : Str) (allow_brackets : Bool) : Bool :=
  let s := if allow_brackets ∧ addr.head? = some '[' ∧ addr.getLast? = some ']'
           then (addr.drop 1).dropLast else addr
  let colons := s.count ':'
  if colons > 7 then false
  else if colons ≠ 7 ∧ ¬ containsSub [':', ':'] s then false
  else if countCC s > 1 ∨ containsSub [':', ':', ':'] s then false
  else (splitAll ':' s).all isHexGroup

/-- Value of a hexadecimal digit character (0 for non-hex characters). -/
def hexVal (c : Char) : Nat :=
  if c.isDigit then c.toNat - 48
  else if 'a' ≤ c ∧ c ≤ 'f' then c.toNat - 87
  else if 'A' ≤ c ∧ c ≤ 'F' then c.toNat - 55
  else 0

/-- Python `int(s, 16)` on a hex string (0 on the empty string). -/
def parseHex (s : Str) : Nat := s.foldl (fun a c => 16 * a + hexVal c) 0

/-- Uppercase hexadecimal digit character for a value below 16. -/
def hexDigitU (d : Nat) : Char :=
  if d < 10 then Char.ofNat (48 + d) else Char.ofNat (55 + d)

/-- Four-character uppercase hexadecimal rendering of a 16-bit value. -/
def toHex4 (v : Nat) : Str :=
  [hexDigitU (v / 4096 % 16), hexDigitU (v / 256 % 16),
   hexDigitU (v / 16 % 16), hexDigitU (v % 16)]

/-- Modelled from the spec: the eight 16-bit group values of an IPv6 address,
with the `::` collapse (first empty group) expanded to the missing number of
zero groups. -/
def ipv6GroupVals (s : Str) : List Nat :=
  let parts := splitAll ':' s
  let missing := 8 - parts.length
  match parts.findIdx? (· = []) with
  | some i =>
    (parts.take i).map parseHex ++ List.replicate missing 0 ++
      ((parts.drop i).map parseHex)
  | none => parts.map parseHex

/-- Canonical (fully expanded, uppercase) IPv6 address string for a list of
group values. -/
def canonIpv6 (gs : List Nat) : Str := joinSep ':' (gs.map toHex4)

/-- Modelled from the spec: `stem.util.connection.expand_ipv6_address`
(expands the `::` collapse and pads every group to four digits). -/
def expand_ipv6_address (s : Str) : Str := canonIpv6 (ipv6GroupVals s)

/-- Integer value of a dotted-quad IPv4 address string. -/
def ipv4Val (s : Str) : Nat :=
  match (splitAll '.' s).map parseNat with
  | [a, b, c, d] => ((a * 256 + b) * 256 + c) * 256 + d
  | _ => 0

/-- Modelled from the spec: integer value of an IPv4 or IPv6 address string
(the source composes `stem.util.connection.get_address_binary`, which yields
the binary string of the address, with `int(·, 2)`). -/
def addr_bin (address : Str) : Nat :=
  if is_valid_ip_address address then ipv4Val address
  else if is_valid_ipv6_address address false then
    (ipv6GroupVals address).foldl (fun acc g => acc * 65536 + g) 0
  else 0

/-- Integer value of the IPv4 mask with the given number of leading one
bits. -/
def maskValIpv4 (bits : Nat) : Nat := 2 ^ 32 - 2 ^ (32 - bits)

/-- Modelled from the spec: `stem.util.connection.get_mask` (dotted-quad
IPv4 subnet mask for a bit count 0..32, e.g. `255.255.255.0` for 24). -/
def get_mask (bits : Nat) : Str :=
  joinSep '.'
    ([maskValIpv4 bits / 16777216 % 256, maskValIpv4 bits / 65536 % 256,
      maskValIpv4 bits / 256 % 256, maskValIpv4 bits % 256].map natToStr)

/-- Integer value of the IPv6 mask with the given number of leading one
bits. -/
def maskValIpv6 (bits : Nat) : Nat := 2 ^ 128 - 2 ^ (128 - bits)

/-- Modelled from the spec: `stem.util.connection.get_mask_ipv6` (the IPv6
subnet mask for a bit count 0..128, in expanded group notation). -/
def get_mask_ipv6 (bits : Nat) : Str :=
  canonIpv6 ((List.range 8).map (fun i => maskValIpv6 bits / 2 ^ (112 - 16 * i) % 65536))

/-- Modelled from the spec: `stem.util.connection.get_masked_bits` (the bit
count whose mask equals the given dotted-quad, `none` when the mask cannot be
represented as a number of leading one bits — the source raises
`ValueError` there). -/
def get_masked_bits (mask : Str) : Option Nat :=
  if is_valid_ip_address mask then
    (List.range 33).find? (fun b => ipv4Val mask = maskValIpv4 b)
  else none

/-! ### `stem/exit_policy.py` -/

/-- The `AddressType` enumeration of `stem/exit_policy.py`.  The source
stores the enum's index in `_address_type` and maps back and forth with
`_address_type_to_int` / `_int_to_address_type`; the embedding stores the
enumeration value directly. -/
inductive AddressType where
  | wildcard
  | ipv4
  | ipv6
  deriving DecidableEq, Repr

/-- State of a parsed `ExitPolicyRule` (`stem/exit_policy.py`): the public
attributes `is_accept`, `address`, `min_port`, `max_port` and the private
`_address_type`, `_masked_bits`, `_mask`. -/
structure ExitPolicyRule where
  is_accept : Bool
  address : Option Str
  addressType : AddressType
  maskedBits : Option Nat
  maskStr : Option Str
  min_port : Nat
  max_port : Nat
  deriving DecidableEq, Repr

/-- `ExitPolicyRule.is_address_wildcard`. -/
def ExitPolicyRule.is_address_wildcard (r : ExitPolicyRule) : Bool :=
  r.addressType = AddressType.wildcard

/-- `ExitPolicyRule.is_port_wildcard`: `min_port in (0, 1)` and
`max_port == 65535`. -/
def ExitPolicyRule.is_port_wildcard (r : ExitPolicyRule) : Bool :=
  (r.min_port = 0 || r.min_port = 1) && r.max_port = 65535

/-- `ExitPolicyRule.get_address_type`. -/
def ExitPolicyRule.get_address_type (r : ExitPolicyRule) : AddressType :=
  r.addressType

/-- `ExitPolicyRule.get_mask`: the stored custom `_mask` when set, otherwise
the mask derived from the address type and `_masked_bits` (`None` for a
wildcard). -/
def ExitPolicyRule.get_mask_str (r : ExitPolicyRule) : Option Str :=
  match r.maskStr with
  | some m => some m
  | none =>
    match r.addressType with
    | AddressType.wildcard => none
    | AddressType.ipv4 => some (get_mask (r.maskedBits.getD 0))
    | AddressType.ipv6 => some (get_mask_ipv6 (r.maskedBits.getD 0))

/-- `ExitPolicyRule._get_mask_bin`: integer value of the rule's mask. -/
def ExitPolicyRule.mask_bin (r : ExitPolicyRule) : Nat :=
  addr_bin (r.get_mask_str.getD [])

/-- `ExitPolicyRule._get_address_bin`: integer value of the rule's address
with the mask applied. -/
def ExitPolicyRule.address_bin (r : ExitPolicyRule) : Nat :=
  addr_bin (r.address.getD []) &&& r.mask_bin

/-- Python `address.lstrip("[").rstrip("]")`. -/
def stripBrackets (s : Str) : Str :=
  ((s.dropWhile (· = '[')).reverse.dropWhile (· = ']')).reverse

/-- Port section of `ExitPolicyRule.is_match`: `False` when the rule is not
a port wildcard and the probe's port is missing or outside the range. -/
def ExitPolicyRule.port_section (r : ExitPolicyRule) (port : Option Nat) : Bool :=
  if ¬ r.is_port_wildcard then
    match port with
    | none => false
    | some p => if p < r.min_port ∨ p > r.max_port then false else true
  else true

/-- Body of `ExitPolicyRule.is_match` after address validation: the port
validity check, the address comparison against the masked address, then the
port-range comparison. -/
def ExitPolicyRule.match_body (r : ExitPolicyRule) (address : Option Str)
    (port : Option Nat) : Except PyErr Bool :=
  if port.any (fun p => ¬ is_valid_port_nat p false) then Except.error PyErr.valueError
  else if ¬ r.is_address_wildcard then
    match address with
    | none => Except.ok false
    | some a =>
      if r.address_bin ≠ (addr_bin a &&& r.mask_bin) then Except.ok false
      else Except.ok (r.port_section port)
  else Except.ok (r.port_section port)

/-- `ExitPolicyRule.is_match`: validates the probe address (an IPv4 probe
against an IPv6 rule, or vice versa, is an immediate non-match; a malformed
address raises `ValueError`), then the body.  A malformed port also raises
`ValueError`. -/
def ExitPolicyRule.is_match (r : ExitPolicyRule) (address : Option Str)
    (port : Option Nat) : Except PyErr Bool :=
  match address with
  | some a =>
    if is_valid_ip_address a then
      if r.get_address_type = AddressType.ipv6 then Except.ok false
      else r.match_body (some a) port
    else if is_valid_ipv6_address a true then
      if r.get_address_type = AddressType.ipv4 then Except.ok false
      else r.match_body (some (stripBrackets a)) port
    else Except.error PyErr.valueError
  | none => r.match_body none port

/-- `ExitPolicyRule._apply_addrspec`: parses the address part of an
exitpattern, yielding `(address, address_type, masked_bits, mask)`. -/
def apply_addrspec (addrspec : Str) :
    Except PyErr (Option Str × AddressType × Option Nat × Option Str) :=
  let (addrBase, addrExtra) :=
    match splitFirst '/' addrspec with
    | some (a, b) => (a, some b)
    | none => (addrspec, (none : Option Str))
  if addrspec = ['*'] then
    Except.ok (none, AddressType.wildcard, none, none)
  else if is_valid_ip_address addrBase then
    match addrExtra with
    | none => Except.ok (some addrBase, AddressType.ipv4, some 32, none)
    | some extra =>
      if is_valid_ip_address extra then
        match get_masked_bits extra with
        | some b => Except.ok (some addrBase, AddressType.ipv4, some b, none)
        | none => Except.ok (some addrBase, AddressType.ipv4, none, some extra)
      else if isDigitStr extra then
        if parseNat extra > 32 then Except.error PyErr.valueError
        else Except.ok (some addrBase, AddressType.ipv4, some (parseNat extra), none)
      else Except.error PyErr.valueError
  else if addrBase.head? = some '[' ∧ addrBase.getLast? = some ']' ∧
      is_valid_ipv6_address ((addrBase.drop 1).dropLast) false then
    let expanded := expand_ipv6_address (pyUpper ((addrBase.drop 1).dropLast))
    match addrExtra with
    | none => Except.ok (some expanded, AddressType.ipv6, some 128, none)
    | some extra =>
      if isDigitStr extra then
        if parseNat extra > 128 then Except.error PyErr.valueError
        else Except.ok (some expanded, AddressType.ipv6, some (parseNat extra), none)
      else Except.error PyErr.valueError
  else Except.error PyErr.valueError

/-- `ExitPolicyRule._apply_portspec`: parses the port part of an
exitpattern, yielding `(min_port, max_port)`.  Port zero is accepted, per
the source's comment about a tor quirk. -/
def apply_portspec (portspec : Str) : Except PyErr (Nat × Nat) :=
  if portspec = ['*'] then Except.ok (1, 65535)
  else if isDigitStr portspec then
    if is_valid_port_str portspec true then
      Except.ok (parseNat portspec, parseNat portspec)
    else Except.error PyErr.valueError
  else if containsSub ['-'] portspec then
    match splitFirst '-' portspec with
    | some (a, b) =>
      if is_valid_port_str a true ∧ is_valid_port_str b true then
        if parseNat a > parseNat b then Except.error PyErr.valueError
        else Except.ok (parseNat a, parseNat b)
      else Except.error PyErr.valueError
    | none => Except.error PyErr.valueError
  else Except.error PyErr.valueError

/-- Body of `ExitPolicyRule.__init__` after the `accept`/`reject` keyword
has been recognized: exactly one space, then an exitpattern
`addrspec:portspec` split at the last colon. -/
def parseRuleBody (rule : Str) (is_accept : Bool) : Except PyErr ExitPolicyRule :=
  let exitpattern := rule.drop 6
  if ¬ (exitpattern.head? = some ' ') ∨
      exitpattern.length - 1 ≠ (pyLstrip exitpattern).length then
    Except.error PyErr.valueError
  else
    let exitpattern := exitpattern.drop 1
    if ¬ containsSub [':'] exitpattern then Except.error PyErr.valueError
    else
      match splitLast ':' exitpattern with
      | none => Except.error PyErr.valueError
      | some (addrspec, portspec) =>
        match apply_addrspec addrspec with
        | Except.error e => Except.error e
        | Except.ok (address, atype, bits, mask) =>
          match apply_portspec portspec with
          | Except.error e => Except.error e
          | Except.ok (minP, maxP) =>
            Except.ok { is_accept := is_accept, address := address,
                        addressType := atype, maskedBits := bits,
                        maskStr := mask, min_port := minP, max_port := maxP }

/-- `ExitPolicyRule.__init__`: dispatch on the `accept`/`reject` keyword,
then the body. -/
def parseRule (rule : Str) : Except PyErr ExitPolicyRule :=
  if List.isPrefixOf ("accept".toList) rule then parseRuleBody rule true
  else if List.isPrefixOf ("reject".toList) rule then parseRuleBody rule false
  else Except.error PyErr.valueError

/-- Address-and-mask section of `ExitPolicyRule.__str__`, up to and
including the colon that separates it from the port section. -/
def ruleStrAddr (r : ExitPolicyRule) : Str :=
  if r.is_address_wildcard then ['*', ':']
  else
    let addrPart :=
      match r.get_address_type with
      | AddressType.ipv4 => r.address.getD []
      | _ => '[' :: (r.address.getD [] ++ [']'])
    let maskPart :=
      if (r.get_address_type = AddressType.ipv4 ∧ r.maskedBits = some 32) ∨
         (r.get_address_type = AddressType.ipv6 ∧ r.maskedBits = some 128) then
        [':']
      else
        match r.maskedBits with
        | some b => '/' :: (natToStr b ++ [':'])
        | none => '/' :: (r.get_mask_str.getD [] ++ [':'])
    addrPart ++ maskPart

/-- Port section of `ExitPolicyRule.__str__`. -/
def ruleStrPort (r : ExitPolicyRule) : Str :=
  if r.is_port_wildcard then ['*']
  else if r.min_port = r.max_port then natToStr r.min_port
  else natToStr r.min_port ++ '-' :: natToStr r.max_port

/-- `ExitPolicyRule.__str__`: the canonical string form of a rule. -/
def ruleStr (r : ExitPolicyRule) : Str :=
  (if r.is_accept then "accept " else "reject ").toList ++
    ruleStrAddr r ++ ruleStrPort r

/-- State of an `ExitPolicy` (`stem/exit_policy.py`): the parsed rules and
the `_is_allowed_default` boolean used when no rule matches. -/
structure ExitPolicy where
  rules : List ExitPolicyRule
  is_allowed_default : Bool
  deriving DecidableEq, Repr

/-- `ExitPolicy.__init__` composed with `_get_rules`: string rules are
stripped and parsed (the source does this lazily on first use; a parse
failure surfaces as the `ValueError` the lazy parse raises).
`_is_allowed_default` starts out `True`. -/
def mkExitPolicy (ruleStrs : List Str) : Except PyErr ExitPolicy :=
  match ruleStrs.mapM (fun s => parseRule (pyStrip s)) with
  | Except.error e => Except.error e
  | Except.ok rules => Except.ok { rules := rules, is_allowed_default := true }

/-- Rule loop of `ExitPolicy.can_exit_to`: the first rule whose `is_match`
accepts the probe decides, via its `is_accept` flag. -/
def canExitLoop (dflt : Bool) (address : Option Str) (port : Option Nat) :
    List ExitPolicyRule → Except PyErr Bool
  | [] => Except.ok dflt
  | r :: rest =>
    match r.is_match address port with
    | Except.error e => Except.error e
    | Except.ok true => Except.ok r.is_accept
    | Except.ok false => canExitLoop dflt address port rest

/-- `ExitPolicy.can_exit_to`. -/
def ExitPolicy.can_exit_to (p : ExitPolicy) (address : Option Str)
    (port : Option Nat) : Except PyErr Bool :=
  canExitLoop p.is_allowed_default address port p.rules

/-- Inner port loop of `ExitPolicy.summary`: walks the ports of one rule,
recording a port on `display` when the rule's `is_accept` agrees with the
white-list flag, and on `skip` unconditionally (first match wins). -/
def summaryPortFold (isWl acc : Bool) :
    List Nat → List Nat → List Nat → (List Nat × List Nat)
  | [], disp, skip => (disp, skip)
  | p :: ps, disp, skip =>
    if p ∈ skip then summaryPortFold isWl acc ps disp skip
    else
      summaryPortFold isWl acc ps
        (if acc = isWl then disp ++ [p] else disp) (p :: skip)

/-- Insertion into a sorted list (helper for `pySort`). -/
def insertSorted (x : Nat) : List Nat → List Nat
  | [] => [x]
  | y :: t => if x ≤ y then x :: y :: t else y :: insertSorted x t

/-- Python `list.sort()` on integers: ascending insertion sort. -/
def pySort : List Nat → List Nat
  | [] => []
  | x :: t => insertSorted x (pySort t)

/-- Rule loop of `ExitPolicy.summary`: skips rules that are not address
wildcards, stops at the first full wildcard rule. -/
def summaryCollect (isWl : Bool) :
    List ExitPolicyRule → List Nat → List Nat → List Nat
  | [], disp, _ => disp
  | r :: rest, disp, skip =>
    if ¬ r.is_address_wildcard then summaryCollect isWl rest disp skip
    else if r.is_port_wildcard then disp
    else
      let (disp', skip') :=
        summaryPortFold isWl r.is_accept
          (List.range' r.min_port (r.max_port + 1 - r.min_port)) disp skip
      summaryCollect isWl rest disp' skip'

/-- Range-compression loop of `ExitPolicy.summary`, including the `None`
sentinel the source appends to flush the final run. -/
def summaryRangesGo : List (Option Nat) → List Nat → List Str
  | [], _ => []
  | port :: rest, temp =>
    if temp = [] ∨ some (temp.getLastD 0 + 1) = port then
      summaryRangesGo rest (temp ++ port.toList)
    else
      (if temp.length > 1 then
         natToStr (temp.headD 0) ++ '-' :: natToStr (temp.getLastD 0)
       else natToStr (temp.headD 0)) :: summaryRangesGo rest port.toList

/-- `ExitPolicy.summary`: white-list/black-list determination, port
collection over the address-wildcard rules, range compression, and the
final `accept `/`reject ` label. -/
def ExitPolicy.summary (p : ExitPolicy) : Str :=
  let isWl0 := !p.is_allowed_default
  let isWl :=
    match p.rules.find? (fun r => r.is_address_wildcard && r.is_port_wildcard) with
    | some r => !r.is_accept
    | none => isWl0
  let displayPorts := summaryCollect isWl p.rules [] []
  let sorted := pySort displayPorts
  let (isWl, ranges) :=
    if displayPorts ≠ [] then
      (isWl, summaryRangesGo (sorted.map some ++ [none]) [])
    else (!isWl, [("1-65535").toList])
  let labelPre := (if isWl then "accept " else "reject ").toList
  pyStrip (labelPre ++ joinSepStr (", ".toList) ranges)

/-- State of a `MicrodescriptorExitPolicy`: the original policy string kept
for `__str__`, the `is_accept` flag, and the underlying `ExitPolicy` whose
default-allowed boolean is overridden to `not is_accept`. -/
structure MicrodescriptorExitPolicy where
  policyStr : Str
  is_accept : Bool
  policy : ExitPolicy
  deriving DecidableEq, Repr

/-- `MicroExitPolicyRule.__init__`: a lighter-weight rule whose overridden
`is_address_wildcard` / `get_address_type` / `get_mask` / `get_masked_bits`
behave exactly like a wildcard-address `ExitPolicyRule`, which is how it is
embedded. -/
def microRule (is_accept : Bool) (minP maxP : Nat) : ExitPolicyRule :=
  { is_accept := is_accept, address := none, addressType := AddressType.wildcard,
    maskedBits := none, maskStr := none, min_port := minP, max_port := maxP }

/-- One `PortOrRange` entry of a microdescriptor policy's port list. -/
def microEntry (is_accept : Bool) (entry : Str) : Except PyErr ExitPolicyRule :=
  let (minS, maxS) :=
    match splitFirst '-' entry with
    | some (a, b) => (a, b)
    | none => (entry, entry)
  if ¬ is_valid_port_str minS false ∨ ¬ is_valid_port_str maxS false then
    Except.error PyErr.valueError
  else Except.ok (microRule is_accept (parseNat minS) (parseNat maxS))

/-- Body of `MicrodescriptorExitPolicy.__init__` after the `accept`/`reject`
keyword has been recognized: exactly one space, a comma-separated port list;
the default-allowed boolean is set to the negation of `is_accept`. -/
def mkMicroBody (policy : Str) (is_accept : Bool) :
    Except PyErr MicrodescriptorExitPolicy :=
  let rest := policy.drop 6
  if ¬ (rest.head? = some ' ') ∨ rest.length - 1 ≠ (pyLstrip rest).length then
    Except.error PyErr.valueError
  else
    let rest := rest.drop 1
    match (splitAll ',' rest).mapM (microEntry is_accept) with
    | Except.error e => Except.error e
    | Except.ok rules =>
      Except.ok { policyStr := policy, is_accept := is_accept,
                  policy := { rules := rules, is_allowed_default := !is_accept } }

/-- `MicrodescriptorExitPolicy.__init__`: dispatch on the `accept`/`reject`
keyword, then the body. -/
def mkMicroExitPolicy (policy : Str) : Except PyErr MicrodescriptorExitPolicy :=
  if List.isPrefixOf ("accept".toList) policy then mkMicroBody policy true
  else if List.isPrefixOf ("reject".toList) policy then mkMicroBody policy false
  else Except.error PyErr.valueError

/-! ### `stem/response/__init__.py` -/

/-- One parsed reply line: `(status_code, divider, content)`. -/
abbrev ReplyLine := Str × Str × Str

/-- State of a `ControlMessage`: the parsed `(code, divider, content)`
triples and the raw socket data. -/
structure ControlMessage where
  parsed_content : List ReplyLine
  raw_content : Str
  deriving DecidableEq, Repr

/-- `ControlMessage.__init__`: an empty line sequence raises `ValueError`
(`"ControlMessages can't be empty"`). -/
def mkControlMessage (parsed : List ReplyLine) (raw : Str) :
    Except PyErr ControlMessage :=
  if parsed = [] then Except.error PyErr.valueError
  else Except.ok { parsed_content := parsed, raw_content := raw }

/-- `ControlMessage.__len__`: the number of content lines. -/
def ControlMessage.len (m : ControlMessage) : Nat := m.parsed_content.length

/-- `SingleLineResponse._parse_message`: rejects multi-line and empty
messages with `ProtocolError`, otherwise records `(code, message)`. -/
def singleLineParse (m : ControlMessage) : Except PyErr (Str × Str) :=
  if m.parsed_content.length > 1 then Except.error PyErr.protocolError
  else if m.parsed_content.length = 0 then Except.error PyErr.protocolError
  else
    match m.parsed_content with
    | (code, _, msg) :: _ => Except.ok (code, msg)
    | [] => Except.error PyErr.protocolError

/-- `SingleLineResponse.is_ok`: status code `250`, and in strict mode the
exact line `("250", " ", "OK")`. -/
def singleLineIsOk (m : ControlMessage) (strict : Bool) : Bool :=
  if strict then
    m.parsed_content.headD ([], [], []) =
      ("250".toList, " ".toList, "OK".toList)
  else (m.parsed_content.headD ([], [], [])).1 = "250".toList

/-- The `CONTROL_ESCAPES` substitution table (escape sequence, replacement),
in the order the source lists it.  CPython 2 iterates a `dict` in an
unspecified order; none of the verified claims depend on the order. -/
def CONTROL_ESCAPES : List (Str × Str) :=
  [(['\\', '\\'], ['\\']), (['\\', '"'], ['"']), (['\\', '\''], ['\'']),
   (['\\', 'r'], ['\r']), (['\\', 'n'], ['\n']), (['\\', 't'], ['\t'])]

/-- Escape substitution applied by `_parse_entry` when `escaped` is set. -/
def applyEscapes (s : Str) : Str :=
  CONTROL_ESCAPES.foldl (fun acc (p : Str × Str) => replaceAll p.1 p.2 acc) s

/-- Escape-skipping quote search of `_get_quote_indices`: Python's
`line.find('"', start)`, retried past any quote preceded by a backslash. -/
def findUnescapedQuote (line : Str) (start : Nat) : Option Nat :=
  match h : pyFindChar line '"' start with
  | none => none
  | some qi =>
    if qi ≥ 1 ∧ line.get? (qi - 1) = some '\\' then
      findUnescapedQuote line (qi + 1)
    else some qi
termination_by line.length - start
decreasing_by
  have := pyFindChar_bounds h
  omega

/-- `_get_quote_indices`: the indices of the next two quotes (Python's `-1`
becomes `none`), with escaped quotes skipped when requested. -/
def get_quote_indices (line : Str) (escaped : Bool) : Option Nat × Option Nat :=
  let find := fun st =>
    if escaped then findUnescapedQuote line st else pyFindChar line '"' st
  match find 0 with
  | none => (none, none)
  | some i => (some i, find (i + 1))

/-- `ControlLine.is_next_quoted`: the remaining content starts with `"` and
a matching closing quote exists. -/
def is_next_quoted (remainder : Str) (escaped : Bool) : Bool :=
  match get_quote_indices remainder escaped with
  | (some 0, some _) => true
  | _ => false

/-- `_parse_entry`: pops the next space-separated (or quoted) entry off a
line, returning `(entry, lstripped remainder)`.  Raises `IndexError` on an
empty line and `ValueError` when `quoted` is set but the content does not
begin with a properly quoted value. -/
def parse_entry (line : Str) (quoted escaped : Bool) :
    Except PyErr (Str × Str) :=
  if line = [] then Except.error PyErr.indexError
  else
    let res : Except PyErr (Str × Str) :=
      if quoted then
        match get_quote_indices line escaped with
        | (some 0, some endQ) =>
          Except.ok ((line.drop 1).take (endQ - 1), line.drop (endQ + 1))
        | _ => Except.error PyErr.valueError
      else
        match splitFirst ' ' line with
        | some (a, b) => Except.ok (a, b)
        | none => Except.ok (line, [])
    match res with
    | Except.error e => Except.error e
    | Except.ok (entry, remainder) =>
      Except.ok (if escaped then applyEscapes entry else entry, pyLstrip remainder)

/-- `ControlLine.pop`: `_parse_entry` on the mutable remainder; the embedded
version returns the popped entry together with the new remainder. -/
def pop (remainder : Str) (quoted escaped : Bool) :
    Except PyErr (Str × Str) :=
  parse_entry remainder quoted escaped

/-- The `KEY_ARG` regex `^(\S+)=`: greedily matches a non-space key followed
by `=`, i.e. splits at the last `=` inside the leading non-space run. -/
def keyArgMatch (s : Str) : Option (Str × Str) :=
  let run := s.takeWhile (fun c => ¬ isPySpace c)
  match splitLast '=' run with
  | some (key, _) =>
    if key = [] then none else some (key, s.drop (key.length + 1))
  | none => none

/-- `ControlLine.pop_mapping`: `IndexError` on an empty remainder,
`ValueError` when the next entry is not a `KEY=VALUE` mapping, otherwise the
`(key, value)` pair plus the new remainder. -/
def pop_mapping (remainder : Str) (quoted escaped : Bool) :
    Except PyErr ((Str × Str) × Str) :=
  if remainder = [] then Except.error PyErr.indexError
  else
    match keyArgMatch remainder with
    | none => Except.error PyErr.valueError
    | some (key, rest) =>
      match parse_entry rest quoted escaped with
      | Except.error e => Except.error e
      | Except.ok (v, rem) => Except.ok ((key, v), rem)

/-- Plain (unquoted, unescaped) `_parse_entry` on a non-empty line splits at
the first space. -/
theorem parse_entry_plain (line : Str) (hne : line ≠ []) :
    parse_entry line false false =
      (match splitFirst ' ' line with
       | some (a, b) => Except.ok (a, pyLstrip b)
       | none => Except.ok (line, ([] : Str))) := by
  unfold parse_entry
  rw [if_neg hne]
  cases hs : splitFirst ' ' line with
  | some ab =>
    obtain ⟨a, b⟩ := ab
    simp
  | none => simp [pyLstrip, List.dropWhile]

/-- Repeatedly `pop()` (plain, unquoted) until the line cursor is empty,
collecting the popped tokens. -/
def popAll (line : Str) : List Str :=
  match line with
  | [] => []
  | c :: rest =>
    match hp : parse_entry (c :: rest) false false with
    | Except.ok (e, rem) => e :: popAll rem
    | Except.error _ => []
termination_by line.length
decreasing_by
  rw [parse_entry_plain (c :: rest) (List.cons_ne_nil c rest)] at hp
  cases hs : splitFirst ' ' (c :: rest) with
  | some ab =>
    obtain ⟨a, b⟩ := ab
    rw [hs] at hp
    simp only [Except.ok.injEq, Prod.mk.injEq] at hp
    obtain ⟨rfl, rfl⟩ := hp
    have hsplit := (splitFirst_eq hs).1
    have hlen : (c :: rest).length = a.length + b.length + 1 := by
      rw [hsplit]
      simp [List.length_append]
      omega
    have hdrop := dropWhile_len_le isPySpace b
    simp only [pyLstrip]
    omega
  | none =>
    rw [hs] at hp
    simp only [Except.ok.injEq, Prod.mk.injEq] at hp
    obtain ⟨rfl, rfl⟩ := hp
    simp

/-- Whitespace-separated words of a line (used to state "modulo quoting
whitespace"). -/
def wordsOf : Str → List Str
  | [] => []
  | c :: rest =>
    if isPySpace c then wordsOf rest
    else
      ((c :: rest).takeWhile (fun x => !(isPySpace x))) ::
        wordsOf ((c :: rest).dropWhile (fun x => !(isPySpace x)))
termination_by s => s.length
decreasing_by
  · simp only [List.length_cons]
    omega
  · rename_i hc
    rw [Bool.not_eq_true] at hc
    simp only [List.dropWhile_cons, hc, Bool.not_false, if_true]
    have := dropWhile_len_le (fun x => !(isPySpace x)) rest
    simp only [List.length_cons]
    omega

/-- A string that passes `is_valid_port_str` denotes a number of at most
65535. -/
theorem is_valid_port_str_le {e : Str} {z : Bool}
    (h : is_valid_port_str e z = true) : parseNat e ≤ 65535 := by
  unfold is_valid_port_str at h
  split at h
  · exact absurd h (by simp)
  · split at h
    · exact absurd h (by simp)
    · unfold is_valid_port_nat at h
      split at h
      · rename_i hz
        omega
      · rw [Bool.and_eq_true] at h
        have := h.2
        simp only [decide_eq_true_eq] at this
        omega

/-- Bounds guaranteed by `_apply_portspec`: the parsed range is ordered and
capped at 65535. -/
theorem apply_portspec_bounds {ps : Str} {mn mx : Nat}
    (h : apply_portspec ps = Except.ok (mn, mx)) :
    mn ≤ mx ∧ mx ≤ 65535 := by
  unfold apply_portspec at h
  split at h
  · simp only [Except.ok.injEq, Prod.mk.injEq] at h
    omega
  · split at h
    · split at h
      · rename_i hv
        simp only [Except.ok.injEq, Prod.mk.injEq] at h
        have := is_valid_port_str_le hv
        omega
      · exact absurd h (by simp)
    · split at h
      · split at h
        · split at h
          · split at h
            · exact absurd h (by simp)
            · rename_i hvv hgt
              simp only [Except.ok.injEq, Prod.mk.injEq] at h
              have h2 := is_valid_port_str_le hvv.2
              omega
          · exact absurd h (by simp)
        · exact absurd h (by simp)
      · exact absurd h (by simp)

/-- Inversion of a successful `parseRuleBody`: the addrspec and portspec
parses that produced each field of the rule. -/
theorem parseRuleBody_ok_inv {rule : Str} {acc : Bool} {r : ExitPolicyRule}
    (h : parseRuleBody rule acc = Except.ok r) :
    ∃ addrspec portspec,
      splitLast ':' ((rule.drop 6).drop 1) = some (addrspec, portspec) ∧
      apply_addrspec addrspec =
        Except.ok (r.address, r.addressType, r.maskedBits, r.maskStr) ∧
      apply_portspec portspec = Except.ok (r.min_port, r.max_port) ∧
      r.is_accept = acc := by
  unfold parseRuleBody at h
  dsimp only at h
  split at h
  · exact absurd h (by simp)
  · split at h
    · exact absurd h (by simp)
    · split at h
      · exact absurd h (by simp)
      · rename_i addrspec portspec hsplit
        split at h
        · exact absurd h (by simp)
        · rename_i address atype bits mask haddr
          split at h
          · exact absurd h (by simp)
          · rename_i minP maxP hport
            simp only [Except.ok.injEq] at h
            subst h
            exact ⟨addrspec, portspec, hsplit, haddr, hport, rfl⟩

/-- Inversion of `parseRule` through the `accept`/`reject` dispatch. -/
theorem parseRule_ok_inv {rule : Str} {r : ExitPolicyRule}
    (h : parseRule rule = Except.ok r) :
    parseRuleBody rule r.is_accept = Except.ok r := by
  unfold parseRule at h
  split at h
  · obtain ⟨as, ps, hs, ha, hp, hacc⟩ := parseRuleBody_ok_inv h
    rw [hacc]
    exact h
  · split at h
    · obtain ⟨as, ps, hs, ha, hp, hacc⟩ := parseRuleBody_ok_inv h
      rw [hacc]
      exact h
    · exact absurd h (by simp)

/-- Validity of a `can_exit_to` / `is_match` probe: the address (when given)
is a well-formed IPv4 or bracketed/plain IPv6 address and the port (when
given) is in 1..65535. -/
def probeValid (a : Option Str) (p : Option Nat) : Bool :=
  (match a with
   | none => true
   | some s => is_valid_ip_address s || is_valid_ipv6_address s true) &&
  (match p with
   | none => true
   | some n => is_valid_port_nat n false)

/-- Boolean reading of `is_match` (meaningful on probes where `is_match`
does not raise). -/
def firstMatchBool (r : ExitPolicyRule) (a : Option Str) (p : Option Nat) : Bool :=
  match r.is_match a p with
  | Except.ok b => b
  | Except.error _ => false

/-- On a probe whose port is valid, `match_body` never raises. -/
theorem match_body_ok (r : ExitPolicyRule) (addr : Option Str) (port : Option Nat)
    (hp : port.any (fun p => ¬ is_valid_port_nat p false) = false) :
    ∃ b, r.match_body addr port = Except.ok b := by
  unfold ExitPolicyRule.match_body
  rw [hp]
  simp only [Bool.false_eq_true, if_false]
  split
  · cases addr with
    | none => exact ⟨false, rfl⟩
    | some a =>
      by_cases hb : r.address_bin ≠ (addr_bin a &&& r.mask_bin)
      · exact ⟨false, by simp [hb]⟩
      · exact ⟨r.port_section port, by simp [hb]⟩
  · exact ⟨r.port_section port, rfl⟩

/-- On a valid probe, `is_match` never raises: it returns the boolean that
`firstMatchBool` reads off. -/
theorem is_match_ok_of_valid (r : ExitPolicyRule) {a : Option Str} {port : Option Nat}
    (hv : probeValid a port = true) :
    r.is_match a port = Except.ok (firstMatchBool r a port) := by
  have hsuff : ∃ b, r.is_match a port = Except.ok b := by
    unfold probeValid at hv
    rw [Bool.and_eq_true] at hv
    obtain ⟨ha, hp⟩ := hv
    have hport : port.any (fun p => ¬ is_valid_port_nat p false) = false := by
      cases port with
      | none => rfl
      | some n =>
        simp only [Option.any_some, Bool.not_eq_true']
        simpa using hp
    unfold ExitPolicyRule.is_match
    cases a with
    | none => exact match_body_ok r none port hport
    | some s =>
      dsimp only
      by_cases hip : is_valid_ip_address s
      · rw [if_pos hip]
        split
        · exact ⟨false, rfl⟩
        · exact match_body_ok r (some s) port hport
      · rw [if_neg hip]
        have hv6 : is_valid_ipv6_address s true = true := by
          rw [Bool.or_eq_true] at ha
          rcases ha with h | h
          · exact absurd h hip
          · exact h
        rw [if_pos hv6]
        split
        · exact ⟨false, rfl⟩
        · exact match_body_ok r (some (stripBrackets s)) port hport
  obtain ⟨b, hb⟩ := hsuff
  rw [hb, firstMatchBool, hb]

/-- First-match-wins for the rule loop, on probes where `is_match` never
raises. -/
theorem canExitLoop_spec (d : Bool) (a : Option Str) (port : Option Nat)
    (hv : probeValid a port = true) (rs : List ExitPolicyRule) :
    canExitLoop d a port rs =
      Except.ok
        (match rs.find? (fun r => firstMatchBool r a port) with
         | some r => r.is_accept
         | none => d) := by
  induction rs with
  | nil => rfl
  | cons r rest ih =>
    have hb := is_match_ok_of_valid r hv
    by_cases hm : firstMatchBool r a port = true
    · have hf : List.find? (fun r => firstMatchBool r a port) (r :: rest) = some r :=
        List.find?_cons_of_pos _ hm
      rw [hm] at hb
      simp only [canExitLoop, hb, hf]
    · have hf : List.find? (fun r => firstMatchBool r a port) (r :: rest) =
          List.find? (fun r => firstMatchBool r a port) rest :=
        List.find?_cons_of_neg _ hm
      rw [Bool.not_eq_true] at hm
      rw [hm] at hb
      simp only [canExitLoop, hb, hf, ih]

/-- A rule loop where no rule matches falls through to the default. -/
theorem canExitLoop_all_false (d : Bool) (a : Option Str) (port : Option Nat)
    (rs : List ExitPolicyRule)
    (h : ∀ r ∈ rs, r.is_match a port = Except.ok false) :
    canExitLoop d a port rs = Except.ok d := by
  induction rs with
  | nil => rfl
  | cons r rest ih =>
    simp only [canExitLoop, h r (List.mem_cons_self r rest)]
    exact ih (fun r hr => h r (List.mem_cons_of_mem _ hr))

/-- A wildcard-address rule matches any valid address; only the port
section decides. -/
theorem is_match_wildcard (r : ExitPolicyRule)
    (hw : r.addressType = AddressType.wildcard) (a : Str)
    (ha : is_valid_ip_address a = true ∨ is_valid_ipv6_address a true = true)
    (p : Nat) (hp : is_valid_port_nat p false = true) :
    r.is_match (some a) (some p) = Except.ok (r.port_section (some p)) := by
  have hport : (some p).any (fun q => ¬ is_valid_port_nat q false) = false := by
    simp only [Option.any_some, Bool.not_eq_true']
    simpa using hp
  have hbody : ∀ addr, r.match_body addr (some p) = Except.ok (r.port_section (some p)) := by
    intro addr
    unfold ExitPolicyRule.match_body
    rw [hport]
    have hwild : r.is_address_wildcard = true := by
      simp [ExitPolicyRule.is_address_wildcard, hw]
    simp [hwild]
  unfold ExitPolicyRule.is_match
  dsimp only
  by_cases hip : is_valid_ip_address a
  · rw [if_pos hip]
    have : r.get_address_type = AddressType.wildcard := hw
    rw [this]
    simp only [reduceCtorEq, if_false]
    exact hbody (some a)
  · rw [if_neg hip]
    have hv6 : is_valid_ipv6_address a true = true := by
      rcases ha with h | h
      · exact absurd h hip
      · exact h
    rw [if_pos hv6]
    have : r.get_address_type = AddressType.wildcard := hw
    rw [this]
    simp only [reduceCtorEq, if_false]
    exact hbody (some (stripBrackets a))

/-- `takeWhile` over an append whose left part fully satisfies the
predicate. -/
theorem takeWhile_append_of_all {p : Char → Bool} {l : Str} (h : l.all p = true)
    (rest : Str) : (l ++ rest).takeWhile p = l ++ rest.takeWhile p := by
  induction l with
  | nil => simp
  | cons c t ih =>
    simp only [List.all_cons, Bool.and_eq_true] at h
    simp [List.takeWhile_cons, h.1, ih h.2]

/-- `dropWhile` over an append whose left part fully satisfies the
predicate. -/
theorem dropWhile_append_of_all {p : Char → Bool} {l : Str} (h : l.all p = true)
    (rest : Str) : (l ++ rest).dropWhile p = rest.dropWhile p := by
  induction l with
  | nil => simp
  | cons c t ih =>
    simp only [List.all_cons, Bool.and_eq_true] at h
    simp [List.dropWhile_cons, h.1, ih h.2]

/-- `takeWhile` over an append whose left part contains a failing element. -/
theorem takeWhile_append_of_not_all {p : Char → Bool} {l : Str}
    (h : ¬ l.all p = true) (rest : Str) :
    (l ++ rest).takeWhile p = l.takeWhile p := by
  induction l with
  | nil => simp at h
  | cons c t ih =>
    by_cases hc : p c
    · simp only [List.all_cons, Bool.and_eq_true, hc, true_and] at h
      simp [List.takeWhile_cons, hc, ih h]
    · simp [List.takeWhile_cons, hc]

/-- `dropWhile` over an append whose left part contains a failing element. -/
theorem dropWhile_append_of_not_all {p : Char → Bool} {l : Str}
    (h : ¬ l.all p = true) (rest : Str) :
    (l ++ rest).dropWhile p = l.dropWhile p ++ rest := by
  induction l with
  | nil => simp at h
  | cons c t ih =>
    by_cases hc : p c
    · simp only [List.all_cons, Bool.and_eq_true, hc, true_and] at h
      simp [List.dropWhile_cons, hc, ih h]
    · simp [List.dropWhile_cons, hc]

/-- Splitting off a space distributes over `wordsOf`. -/
theorem wordsOf_append_space (a b : Str) :
    wordsOf (a ++ ' ' :: b) = wordsOf a ++ wordsOf b := by
  suffices H : ∀ n (a b : Str), a.length ≤ n →
      wordsOf (a ++ ' ' :: b) = wordsOf a ++ wordsOf b from
    H a.length a b le_rfl
  intro n
  induction n with
  | zero =>
    intro a b hlen
    have ha : a = [] := by
      cases a with
      | nil => rfl
      | cons c t => simp at hlen
    subst ha
    rw [List.nil_append, wordsOf]
    simp [isPySpace, wordsOf]
  | succ n ih =>
    intro a b hlen
    cases a with
    | nil =>
      rw [List.nil_append, wordsOf]
      simp [isPySpace, wordsOf]
    | cons c t =>
      rw [List.cons_append, wordsOf, wordsOf]
      by_cases hc : isPySpace c
      · rw [if_pos hc, if_pos hc]
        exact ih t b (by simp at hlen; omega)
      · rw [if_neg hc, if_neg hc]
        by_cases hall : t.all (fun x => !(isPySpace x)) = true
        · have htw : (c :: (t ++ ' ' :: b)).takeWhile (fun x => !(isPySpace x)) =
              c :: t := by
            rw [List.takeWhile_cons_of_pos (by simpa using hc),
              takeWhile_append_of_all hall]
            have : (' ' :: b).takeWhile (fun x => !(isPySpace x)) = [] := by
              rw [List.takeWhile_cons_of_neg (by simp [isPySpace])]
            rw [this, List.append_nil]
          have hdw : (c :: (t ++ ' ' :: b)).dropWhile (fun x => !(isPySpace x)) =
              ' ' :: b := by
            rw [List.dropWhile_cons_of_pos (by simpa using hc),
              dropWhile_append_of_all hall]
            exact List.dropWhile_cons_of_neg (by simp [isPySpace])
          have htw2 : (c :: t).takeWhile (fun x => !(isPySpace x)) = c :: t := by
            rw [List.takeWhile_cons_of_pos (by simpa using hc)]
            exact congrArg (c :: ·) (List.takeWhile_eq_self_iff.mpr (by
              intro x hx
              simpa using (List.all_eq_true.mp hall) x hx))
          have hdw2 : (c :: t).dropWhile (fun x => !(isPySpace x)) = [] := by
            rw [List.dropWhile_cons_of_pos (by simpa using hc)]
            exact List.dropWhile_eq_nil_iff.mpr (by
              intro x hx
              simpa using (List.all_eq_true.mp hall) x hx)
          rw [htw, hdw, htw2, hdw2]
          have hws : wordsOf (' ' :: b) = wordsOf b := by
            rw [wordsOf]
            simp [isPySpace]
          rw [hws, wordsOf]
          simp
        · have htw : (c :: (t ++ ' ' :: b)).takeWhile (fun x => !(isPySpace x)) =
              c :: t.takeWhile (fun x => !(isPySpace x)) := by
            rw [List.takeWhile_cons_of_pos (by simpa using hc),
              takeWhile_append_of_not_all hall]
          have hdw : (c :: (t ++ ' ' :: b)).dropWhile (fun x => !(isPySpace x)) =
              t.dropWhile (fun x => !(isPySpace x)) ++ ' ' :: b := by
            rw [List.dropWhile_cons_of_pos (by simpa using hc),
              dropWhile_append_of_not_all hall]
          have htw2 : (c :: t).takeWhile (fun x => !(isPySpace x)) =
              c :: t.takeWhile (fun x => !(isPySpace x)) :=
            List.takeWhile_cons_of_pos (by simpa using hc)
          have hdw2 : (c :: t).dropWhile (fun x => !(isPySpace x)) =
              t.dropWhile (fun x => !(isPySpace x)) :=
            List.dropWhile_cons_of_pos (by simpa using hc)
          rw [htw, hdw, htw2, hdw2]
          have hrec := ih (t.dropWhile (fun x => !(isPySpace x))) b (by
            have := dropWhile_len_le (fun x => !(isPySpace x)) t
            simp at hlen
            omega)
          rw [hrec]
          simp

/-- `wordsOf` of the empty line. -/
theorem wordsOf_nil : wordsOf ([] : Str) = [] := by
  rw [wordsOf]

/-- `wordsOf` ignores leading whitespace. -/
theorem wordsOf_lstrip (b : Str) : wordsOf (pyLstrip b) = wordsOf b := by
  induction b with
  | nil => rfl
  | cons c t ih =>
    by_cases hc : isPySpace c
    · rw [pyLstrip, List.dropWhile_cons_of_pos hc, wordsOf, if_pos hc]
      exact ih
    · rw [pyLstrip, List.dropWhile_cons_of_neg (by simpa using hc)]

/-- Unfolding rule of `popAll` on a non-empty line. -/
theorem popAll_cons (c : Char) (rest : Str) {e rem : Str}
    (hp : parse_entry (c :: rest) false false = Except.ok (e, rem)) :
    popAll (c :: rest) = e :: popAll rem := by
  rw [popAll]
  split
  · rename_i e2 rem2 hp2
    rw [hp2] at hp
    simp only [Except.ok.injEq, Prod.mk.injEq] at hp
    rw [hp.1, hp.2]
  · rename_i err hp2
    rw [hp2] at hp
    simp at hp

/-- `popAll` on the empty line yields no tokens. -/
theorem popAll_nil : popAll ([] : Str) = [] := by
  rw [popAll]

/-- Every non-empty line yields at least one token. -/
theorem popAll_ne_nil_of_ne_nil {l : Str} (h : l ≠ []) : popAll l ≠ [] := by
  cases l with
  | nil => exact absurd rfl h
  | cons c rest =>
    have hpe := parse_entry_plain (c :: rest) (List.cons_ne_nil c rest)
    cases hs : splitFirst ' ' (c :: rest) with
    | some ab =>
      obtain ⟨a, b⟩ := ab
      rw [hs] at hpe
      rw [popAll_cons _ _ hpe]
      simp
    | none =>
      rw [hs] at hpe
      rw [popAll_cons _ _ hpe]
      simp

/-- `joinSep` on a list with at least two entries. -/
theorem joinSep_cons (sep : Char) (a : Str) {ts : List Str} (h : ts ≠ []) :
    joinSep sep (a :: ts) = a ++ sep :: joinSep sep ts := by
  cases ts with
  | nil => exact absurd rfl h
  | cons b ts2 => rfl

/-! ### Lemmas about characters, decimal strings and splitting
(supporting the round-trip claim). -/

/-- Arithmetic reading of `Char.isDigit`. -/
theorem isDigit_toNat {c : Char} (h : c.isDigit = true) :
    48 ≤ c.toNat ∧ c.toNat ≤ 57 := by
  simp [Char.isDigit] at h
  exact h

/-- A digit character is none of the punctuation characters the parsers
split on, and is not whitespace. -/
theorem digit_ne {c : Char} (h : c.isDigit = true) :
    c ≠ ':' ∧ c ≠ '/' ∧ c ≠ '-' ∧ c ≠ '.' ∧ c ≠ '*' ∧ c ≠ '[' ∧
    isPySpace c = false := by
  obtain ⟨h1, h2⟩ := isDigit_toNat h
  refine ⟨?_, ?_, ?_, ?_, ?_, ?_, ?_⟩
  · rintro rfl
    have e : (':').toNat = 58 := by decide
    omega
  · rintro rfl
    have e : ('/').toNat = 47 := by decide
    omega
  · rintro rfl
    have e : ('-').toNat = 45 := by decide
    omega
  · rintro rfl
    have e : ('.').toNat = 46 := by decide
    omega
  · rintro rfl
    have e : ('*').toNat = 42 := by decide
    omega
  · rintro rfl
    have e : ('[').toNat = 91 := by decide
    omega
  · by_contra hsp
    rw [Bool.not_eq_false] at hsp
    simp only [isPySpace, Bool.or_eq_true, decide_eq_true_eq] at hsp
    rcases hsp with ((((rfl | rfl) | rfl) | rfl) | rfl) | rfl <;>
      revert h1 h2 <;> decide

/-- The character `Char.ofNat (48 + d)` for `d < 10` is a digit. -/
theorem digitChar_isDigit {d : Nat} (h : d < 10) :
    (Char.ofNat (48 + d)).isDigit = true := by
  interval_cases d <;> decide

/-- Value of the character `Char.ofNat (48 + d)` for `d < 10`. -/
theorem digitChar_toNat {d : Nat} (h : d < 10) :
    (Char.ofNat (48 + d)).toNat = 48 + d := by
  interval_cases d <;> decide

/-- The character `Char.ofNat (48 + d)` is `'0'` only for `d = 0`. -/
theorem digitChar_ne_zero {d : Nat} (h1 : 1 ≤ d) (h2 : d < 10) :
    Char.ofNat (48 + d) ≠ '0' := by
  interval_cases d <;> decide

/-- Every character of `natToStr n` is a digit. -/
theorem natToStr_all_digit (n : Nat) : ∀ c ∈ natToStr n, c.isDigit = true := by
  induction n using Nat.strong_induction_on with
  | _ n ih =>
    rw [natToStr_unfold]
    by_cases hn : n < 10
    · rw [if_pos hn]
      intro c hc
      simp only [List.mem_singleton] at hc
      subst hc
      exact digitChar_isDigit hn
    · rw [if_neg hn]
      intro c hc
      rw [List.mem_append, List.mem_singleton] at hc
      rcases hc with hc | rfl
      · exact ih (n / 10) (Nat.div_lt_self (by omega) (by omega)) c hc
      · exact digitChar_isDigit (Nat.mod_lt n (by omega))

/-- `natToStr` never produces the empty string. -/
theorem natToStr_ne_nil (n : Nat) : natToStr n ≠ [] := by
  rw [natToStr_unfold]
  by_cases hn : n < 10
  · rw [if_pos hn]
    simp
  · rw [if_neg hn]
    simp

/-- Folding one more digit onto `parseNat`. -/
theorem parseNat_append_digit (xs : Str) (c : Char) :
    parseNat (xs ++ [c]) = 10 * parseNat xs + (c.toNat - 48) := by
  unfold parseNat
  rw [List.foldl_append]
  rfl

/-- `parseNat` inverts `natToStr`. -/
theorem parseNat_natToStr (n : Nat) : parseNat (natToStr n) = n := by
  induction n using Nat.strong_induction_on with
  | _ n ih =>
    rw [natToStr_unfold]
    by_cases hn : n < 10
    · rw [if_pos hn]
      show 10 * 0 + ((Char.ofNat (48 + n)).toNat - 48) = n
      rw [digitChar_toNat hn]
      omega
    · rw [if_neg hn]
      rw [parseNat_append_digit,
        ih (n / 10) (Nat.div_lt_self (by omega) (by omega)),
        digitChar_toNat (Nat.mod_lt n (by omega))]
      omega

/-- `natToStr` of a positive number does not start with `'0'`. -/
theorem natToStr_head_ne_zero {n : Nat} (h : 1 ≤ n) :
    (natToStr n).head? ≠ some '0' := by
  induction n using Nat.strong_induction_on with
  | _ n ih =>
    rw [natToStr_unfold]
    by_cases hn : n < 10
    · rw [if_pos hn]
      simp only [List.head?_cons]
      intro hcontra
      simp only [Option.some.injEq] at hcontra
      exact digitChar_ne_zero h hn hcontra
    · rw [if_neg hn]
      cases hcase : natToStr (n / 10) with
      | nil => exact absurd hcase (natToStr_ne_nil (n / 10))
      | cons c t =>
        have := ih (n / 10) (Nat.div_lt_self (by omega) (by omega)) (by omega)
        rw [hcase] at this
        simpa using this

/-- `natToStr` never has a leading zero in the sense Python's port
validator checks. -/
theorem natToStr_no_leading_zero (n : Nat) :
    ¬ ((natToStr n).head? = some '0' ∧ (natToStr n).length > 1) := by
  by_cases h : 1 ≤ n
  · rintro ⟨h0, _⟩
    exact natToStr_head_ne_zero h h0
  · have hn : n = 0 := by omega
    subst hn
    rintro ⟨_, hlen⟩
    have : natToStr 0 = ['0'] := by decide
    rw [this] at hlen
    simp at hlen

/-- `natToStr` is a digit string in Python's `isdigit` sense. -/
theorem isDigitStr_natToStr (n : Nat) : isDigitStr (natToStr n) = true := by
  unfold isDigitStr
  rw [Bool.and_eq_true]
  constructor
  · cases hcase : natToStr n with
    | nil => exact absurd hcase (natToStr_ne_nil n)
    | cons c t => simp
  · rw [List.all_eq_true]
    intro c hc
    exact natToStr_all_digit n c hc

/-- `natToStr` is accepted by the modelled port validator whenever the
value fits a port. -/
theorem is_valid_port_str_natToStr {n : Nat} (h : n ≤ 65535) :
    is_valid_port_str (natToStr n) true = true := by
  unfold is_valid_port_str
  rw [if_neg (by simp [isDigitStr_natToStr]), if_neg (natToStr_no_leading_zero n)]
  unfold is_valid_port_nat
  by_cases hn : n = 0
  · subst hn
    rw [parseNat_natToStr]
    simp
  · rw [parseNat_natToStr]
    split
    · rfl
    · simp only [Bool.and_eq_true, decide_eq_true_eq]
      omega

/-! ### Lemmas about `splitAll` and `joinSep`. -/

/-- `splitAll` never returns the empty list of parts. -/
theorem splitAll_ne_nil (sep : Char) (s : Str) : splitAll sep s ≠ [] := by
  cases s with
  | nil => simp [splitAll]
  | cons c t =>
    rw [splitAll]
    by_cases hc : c = sep
    · simp [hc]
    · rw [if_neg hc]
      cases hsp : splitAll sep t with
      | nil => simp
      | cons p ps => simp

/-- Joining the parts of `splitAll` recovers the string. -/
theorem joinSep_splitAll (sep : Char) (s : Str) :
    joinSep sep (splitAll sep s) = s := by
  induction s with
  | nil => rfl
  | cons c t ih =>
    rw [splitAll]
    by_cases hc : c = sep
    · rw [if_pos hc, joinSep_cons sep [] (splitAll_ne_nil sep t), ih]
      simp [hc]
    · rw [if_neg hc]
      cases hsp : splitAll sep t with
      | nil => exact absurd hsp (splitAll_ne_nil sep t)
      | cons p ps =>
        rw [hsp] at ih
        cases ps with
        | nil =>
          simp only [joinSep] at ih ⊢
          rw [ih]
        | cons q qs =>
          rw [joinSep_cons sep (c :: p) (by simp)]
          rw [joinSep_cons sep p (by simp)] at ih
          simp [← ih]

/-- A character of a joined string is the separator or lies in one of the
parts. -/
theorem mem_joinSep {sep c : Char} {parts : List Str}
    (h : c ∈ joinSep sep parts) : c = sep ∨ ∃ p ∈ parts, c ∈ p := by
  induction parts with
  | nil => simp [joinSep] at h
  | cons p ps ih =>
    cases ps with
    | nil =>
      simp only [joinSep] at h
      exact Or.inr ⟨p, by simp, h⟩
    | cons q qs =>
      rw [joinSep_cons sep p (by simp)] at h
      rw [List.mem_append, List.mem_cons] at h
      rcases h with h | h | h
      · exact Or.inr ⟨p, by simp, h⟩
      · exact Or.inl h
      · rcases ih h with h | ⟨x, hx, hcx⟩
        · exact Or.inl h
        · exact Or.inr ⟨x, by simp [hx], hcx⟩

/-- The number of parts is one more than the number of separators. -/
theorem splitAll_length (sep : Char) (s : Str) :
    (splitAll sep s).length = s.count sep + 1 := by
  induction s with
  | nil => simp [splitAll]
  | cons c t ih =>
    rw [splitAll]
    by_cases hc : c = sep
    · rw [if_pos hc]
      simp only [List.length_cons, ih, List.count_cons]
      simp [hc]
    · rw [if_neg hc]
      cases hsp : splitAll sep t with
      | nil => exact absurd hsp (splitAll_ne_nil sep t)
      | cons p ps =>
        rw [hsp] at ih
        simp only [List.length_cons] at ih ⊢
        rw [List.count_cons]
        simp only [ih]
        have : ¬ (c == sep) = true := by simpa using hc
        simp [this]

/-- `splitAll` of a separator-free string is that single part. -/
theorem splitAll_of_not_mem {sep : Char} {s : Str} (h : sep ∉ s) :
    splitAll sep s = [s] := by
  induction s with
  | nil => rfl
  | cons c t ih =>
    rw [splitAll]
    have hc : c ≠ sep := fun hcs => h (by simp [hcs])
    rw [if_neg hc, ih (fun hm => h (by simp [hm]))]

/-- `splitAll` past a first separator-free part. -/
theorem splitAll_append_sep {sep : Char} {p : Str} (h : sep ∉ p) (rest : Str) :
    splitAll sep (p ++ sep :: rest) = p :: splitAll sep rest := by
  induction p with
  | nil => simp [splitAll]
  | cons c t ih =>
    have hc : c ≠ sep := fun hcs => h (by simp [hcs])
    rw [List.cons_append, splitAll, if_neg hc,
      ih (fun hm => h (by simp [hm]))]

/-- `splitAll` inverts `joinSep` on separator-free parts. -/
theorem splitAll_joinSep {sep : Char} {parts : List Str} (hne : parts ≠ [])
    (h : ∀ p ∈ parts, sep ∉ p) :
    splitAll sep (joinSep sep parts) = parts := by
  induction parts with
  | nil => exact absurd rfl hne
  | cons p ps ih =>
    cases ps with
    | nil =>
      simp only [joinSep]
      exact splitAll_of_not_mem (h p (by simp))
    | cons q qs =>
      rw [joinSep_cons sep p (by simp),
        splitAll_append_sep (h p (by simp)),
        ih (by simp) (fun x hx => h x (by simp [hx]))]

/-- Separator count of a join of separator-free parts. -/
theorem count_joinSep {sep : Char} {parts : List Str}
    (h : ∀ p ∈ parts, sep ∉ p) :
    (joinSep sep parts).count sep = parts.length - 1 := by
  induction parts with
  | nil => simp [joinSep]
  | cons p ps ih =>
    cases ps with
    | nil =>
      simp only [joinSep, List.length_cons]
      simp [List.count_eq_zero.mpr (h p (by simp))]
    | cons q qs =>
      rw [joinSep_cons sep p (by simp)]
      rw [List.count_append, List.count_cons]
      rw [List.count_eq_zero.mpr (h p (by simp)),
        ih (fun x hx => h x (by simp [hx]))]
      simp

/-! ### Lemmas about hexadecimal groups and canonical IPv6 strings. -/

/-- `hexVal` never exceeds 15. -/
theorem hexVal_le (c : Char) : hexVal c ≤ 15 := by
  unfold hexVal
  split
  · rename_i h
    have := isDigit_toNat h
    omega
  · split
    · rename_i h
      obtain ⟨h1, h2⟩ := h
      have g1 : 97 ≤ c.toNat := h1
      have g2 : c.toNat ≤ 102 := h2
      omega
    · split
      · rename_i h
        obtain ⟨h1, h2⟩ := h
        have g1 : 65 ≤ c.toNat := h1
        have g2 : c.toNat ≤ 70 := h2
        omega
      · omega

/-- `parseHex` of a string of length `k` is below `16 ^ k`. -/
theorem parseHex_lt (s : Str) : parseHex s < 16 ^ s.length := by
  suffices H : ∀ (s : Str) (acc : Nat),
      s.foldl (fun a c => 16 * a + hexVal c) acc < (acc + 1) * 16 ^ s.length by
    simpa using H s 0
  intro s
  induction s with
  | nil => intro acc; simp
  | cons c t ih =>
    intro acc
    rw [List.foldl_cons]
    have h1 := ih (16 * acc + hexVal c)
    have h2 := hexVal_le c
    have h3 : (16 * acc + hexVal c + 1) * 16 ^ t.length ≤
        (acc + 1) * 16 ^ (t.length + 1) := by
      rw [pow_succ]
      calc (16 * acc + hexVal c + 1) * 16 ^ t.length
          ≤ ((acc + 1) * 16) * 16 ^ t.length :=
            Nat.mul_le_mul_right _ (by omega)
        _ = (acc + 1) * (16 ^ t.length * 16) := by ring
    simp only [List.length_cons]
    exact lt_of_lt_of_le h1 h3

/-- `hexVal` inverts `hexDigitU`. -/
theorem hexVal_hexDigitU {d : Nat} (h : d < 16) : hexVal (hexDigitU d) = d := by
  interval_cases d <;> decide

/-- `parseHex` inverts `toHex4` on 16-bit values. -/
theorem parseHex_toHex4 {v : Nat} (h : v < 65536) : parseHex (toHex4 v) = v := by
  unfold parseHex toHex4
  simp only [List.foldl_cons, List.foldl_nil]
  rw [hexVal_hexDigitU (by omega), hexVal_hexDigitU (by omega),
    hexVal_hexDigitU (by omega), hexVal_hexDigitU (by omega)]
  omega

/-- Character-level facts about `hexDigitU`. -/
theorem hexDigitU_facts {d : Nat} (h : d < 16) :
    isHexDigitChar (hexDigitU d) = true ∧ hexDigitU d ≠ ':' ∧
    hexDigitU d ≠ '/' ∧ hexDigitU d ≠ '.' ∧
    upChar (hexDigitU d) = hexDigitU d ∧ isPySpace (hexDigitU d) = false := by
  interval_cases d <;> exact ⟨by decide, by decide, by decide, by decide,
    by decide, by decide⟩

/-- Character-level facts about the members of `toHex4 v`. -/
theorem toHex4_mem {v : Nat} {c : Char} (hc : c ∈ toHex4 v) :
    isHexDigitChar c = true ∧ c ≠ ':' ∧ c ≠ '/' ∧ c ≠ '.' ∧
    upChar c = c ∧ isPySpace c = false := by
  unfold toHex4 at hc
  simp only [List.mem_cons, List.not_mem_nil, or_false] at hc
  rcases hc with rfl | rfl | rfl | rfl
  · exact hexDigitU_facts (Nat.mod_lt _ (by omega))
  · exact hexDigitU_facts (Nat.mod_lt _ (by omega))
  · exact hexDigitU_facts (Nat.mod_lt _ (by omega))
  · exact hexDigitU_facts (Nat.mod_lt _ (by omega))

/-- `toHex4` always produces exactly four characters. -/
theorem toHex4_length (v : Nat) : (toHex4 v).length = 4 := rfl

/-- `toHex4` is never empty. -/
theorem toHex4_ne_nil (v : Nat) : toHex4 v ≠ [] := by
  unfold toHex4
  simp

/-- The tail of an adjacency-free string is adjacency-free. -/
theorem noCC_tail {c : Char} {t : Str} (h : noCC (c :: t) = true) :
    noCC t = true := by
  cases t with
  | nil => rfl
  | cons d u =>
    rw [noCC, Bool.and_eq_true] at h
    exact h.2

/-- A colon-free string has no adjacent colons. -/
theorem noCC_of_not_mem : ∀ {s : Str}, ':' ∉ s → noCC s = true
  | [], _ => rfl
  | [_], _ => rfl
  | c :: d :: t, h => by
    rw [noCC, Bool.and_eq_true]
    have hc : c ≠ ':' := fun hcc => h (by simp [hcc])
    refine ⟨by simp [hc], noCC_of_not_mem (fun hm => h (List.mem_cons_of_mem _ hm))⟩

/-- An adjacency-free string contains no non-overlapping `::`. -/
theorem countCC_zero : ∀ {s : Str}, noCC s = true → countCC s = 0
  | [], _ => rfl
  | [_], _ => rfl
  | c :: d :: t, h => by
    rw [noCC, Bool.and_eq_true] at h
    have hnand : ¬ (c = ':' ∧ d = ':') := by
      intro hand
      rw [hand.1, hand.2] at h
      simp at h
    rw [countCC, if_neg hnand]
    exact countCC_zero h.2

/-- An adjacency-free string contains no substring starting with `::`. -/
theorem not_containsSub_CC {s : Str} (h : noCC s = true) (q : Str) :
    containsSub (':' :: ':' :: q) s = false := by
  induction s with
  | nil => rfl
  | cons c t ih =>
    rw [containsSub]
    have h1 : List.isPrefixOf (':' :: ':' :: q) (c :: t) = false := by
      cases t with
      | nil =>
        cases hc : (':' == c) <;> simp [List.isPrefixOf, hc]
      | cons d u =>
        rw [noCC, Bool.and_eq_true] at h
        have : ¬ (c = ':' ∧ d = ':') := by
          intro hand
          rw [hand.1, hand.2] at h
          simp at h
        by_cases hc : c = ':'
        · have hd : d ≠ ':' := fun hdd => this ⟨hc, hdd⟩
          have : (':' == d) = false := by simpa using (Ne.symm hd)
          simp [List.isPrefixOf, this]
        · have : (':' == c) = false := by simpa using (Ne.symm hc)
          simp [List.isPrefixOf, this]
    rw [h1, Bool.false_or]
    exact ih (noCC_tail h)

/-- Gluing a colon-free part onto an adjacency-free rest whose head is not a
colon keeps the string adjacency-free. -/
theorem noCC_append_sep {p rest : Str} (hp : ':' ∉ p) (h1 : noCC rest = true)
    (h2 : rest.head? ≠ some ':') : noCC (p ++ ':' :: rest) = true := by
  induction p with
  | nil =>
    simp only [List.nil_append]
    cases rest with
    | nil => rfl
    | cons d u =>
      rw [noCC, Bool.and_eq_true]
      have hd : d ≠ ':' := fun hdd => h2 (by simp [hdd])
      exact ⟨by simp [hd], h1⟩
  | cons c p' ih =>
    have hc : c ≠ ':' := fun hcc => hp (by simp [hcc])
    have htail := ih (fun hm => hp (by simp [hm]))
    rw [List.cons_append]
    cases hcase : p' ++ ':' :: rest with
    | nil => simp at hcase
    | cons d u =>
      rw [noCC, Bool.and_eq_true]
      rw [hcase] at htail
      exact ⟨by simp [hc], htail⟩

/-- Head of a colon-join whose first part is non-empty. -/
theorem joinSep_head {q : Str} (hq : q ≠ []) (qs : List Str) :
    (joinSep ':' (q :: qs)).head? = q.head? := by
  cases qs with
  | nil => rfl
  | cons r rs =>
    rw [joinSep_cons ':' q (by simp)]
    cases q with
    | nil => exact absurd rfl hq
    | cons a b => rfl

/-- A colon-join of non-empty colon-free parts is adjacency-free. -/
theorem noCC_joinSep {parts : List Str}
    (h : ∀ p ∈ parts, p ≠ [] ∧ ':' ∉ p) :
    noCC (joinSep ':' parts) = true := by
  induction parts with
  | nil => rfl
  | cons p ps ih =>
    cases ps with
    | nil => exact noCC_of_not_mem (h p (by simp)).2
    | cons q qs =>
      rw [joinSep_cons ':' p (by simp)]
      apply noCC_append_sep (h p (by simp)).2
        (ih (fun x hx => h x (by simp [hx])))
      rw [joinSep_head (h q (by simp)).1 qs]
      cases hqc : q with
      | nil => exact absurd hqc (h q (by simp)).1
      | cons a b =>
        simp only [List.head?_cons, ne_eq, Option.some.injEq]
        intro ha
        exact (h q (by simp)).2 (by simp [hqc, ha])

/-- Parts of the canonical IPv6 rendering: non-empty and colon-free. -/
theorem canonIpv6_parts {gs : List Nat} :
    ∀ p ∈ gs.map toHex4, p ≠ [] ∧ ':' ∉ p := by
  intro p hp
  simp only [List.mem_map] at hp
  obtain ⟨v, hv, rfl⟩ := hp
  exact ⟨toHex4_ne_nil v, fun hm => (toHex4_mem hm).2.1 rfl⟩

/-- The canonical rendering of eight groups is a valid IPv6 address. -/
theorem canonIpv6_valid {gs : List Nat} (hlen : gs.length = 8) :
    is_valid_ipv6_address (canonIpv6 gs) false = true := by
  have hgs : gs ≠ [] := by
    intro h
    rw [h] at hlen
    simp at hlen
  have hcount : (canonIpv6 gs).count ':' = 7 := by
    unfold canonIpv6
    rw [count_joinSep (fun p hp => (canonIpv6_parts p hp).2)]
    simp [hlen]
  have hnoCC : noCC (canonIpv6 gs) = true := noCC_joinSep canonIpv6_parts
  unfold is_valid_ipv6_address
  simp only [Bool.false_eq_true, false_and, if_false, hcount]
  rw [if_neg (by omega), if_neg (by simp)]
  rw [if_neg (by
    rw [countCC_zero hnoCC]
    have := not_containsSub_CC hnoCC [':']
    simp [this])]
  unfold canonIpv6
  rw [splitAll_joinSep (by simp [hgs]) (fun p hp => (canonIpv6_parts p hp).2)]
  rw [List.all_eq_true]
  intro p hp
  simp only [List.mem_map] at hp
  obtain ⟨v, hv, rfl⟩ := hp
  unfold isHexGroup
  rw [Bool.and_eq_true, toHex4_length]
  refine ⟨by simp, ?_⟩
  rw [List.all_eq_true]
  intro c hc
  exact (toHex4_mem hc).1

/-- Group values of the canonical rendering. -/
theorem ipv6GroupVals_canon {gs : List Nat} (hlen : gs.length = 8)
    (hbound : ∀ v ∈ gs, v < 65536) : ipv6GroupVals (canonIpv6 gs) = gs := by
  have hgs : gs ≠ [] := by
    intro h
    rw [h] at hlen
    simp at hlen
  unfold ipv6GroupVals canonIpv6
  rw [splitAll_joinSep (by simp [hgs]) (fun p hp => (canonIpv6_parts p hp).2)]
  have hfind : (gs.map toHex4).findIdx? (· = []) = none := by
    rw [List.findIdx?_eq_none_iff]
    intro x hx
    simp only [List.mem_map] at hx
    obtain ⟨v, hv, rfl⟩ := hx
    simpa using toHex4_ne_nil v
  dsimp only
  rw [hfind]
  have : ∀ v ∈ gs, (parseHex ∘ toHex4) v = id v := by
    intro v hv
    exact parseHex_toHex4 (hbound v hv)
  rw [List.map_map, List.map_congr_left this, List.map_id]

/-- The canonical rendering is a fixpoint of expansion. -/
theorem expand_canon {gs : List Nat} (hlen : gs.length = 8)
    (hbound : ∀ v ∈ gs, v < 65536) :
    expand_ipv6_address (canonIpv6 gs) = canonIpv6 gs := by
  unfold expand_ipv6_address
  rw [ipv6GroupVals_canon hlen hbound]

/-- Upper-casing a join distributes over the parts. -/
theorem pyUpper_joinSep (parts : List Str) :
    pyUpper (joinSep ':' parts) = joinSep ':' (parts.map pyUpper) := by
  induction parts with
  | nil => rfl
  | cons p ps ih =>
    cases ps with
    | nil => rfl
    | cons q qs =>
      rw [joinSep_cons ':' p (by simp), List.map_cons,
        joinSep_cons ':' (pyUpper p) (by simp)]
      have h1 : pyUpper (p ++ ':' :: joinSep ':' (q :: qs)) =
          pyUpper p ++ upChar ':' :: pyUpper (joinSep ':' (q :: qs)) := by
        unfold pyUpper
        rw [List.map_append, List.map_cons]
      have hcolon : upChar ':' = ':' := by decide
      rw [h1, ih, hcolon]

/-- The canonical rendering is already upper-case. -/
theorem pyUpper_canon (gs : List Nat) :
    pyUpper (canonIpv6 gs) = canonIpv6 gs := by
  unfold canonIpv6
  rw [pyUpper_joinSep, List.map_map]
  congr 1
  apply List.map_congr_left
  intro v hv
  show (toHex4 v).map upChar = toHex4 v
  calc (toHex4 v).map upChar = (toHex4 v).map id :=
        List.map_congr_left (fun c hc => (toHex4_mem hc).2.2.2.2.1)
    _ = toHex4 v := List.map_id _

/-- Characters of the canonical rendering: colons or upper-case hex
digits. -/
theorem mem_canonIpv6 {gs : List Nat} {c : Char} (h : c ∈ canonIpv6 gs) :
    c = ':' ∨ (isHexDigitChar c = true ∧ c ≠ ':' ∧ c ≠ '/' ∧ c ≠ '.' ∧
      upChar c = c ∧ isPySpace c = false) := by
  rcases mem_joinSep h with h | ⟨p, hp, hcp⟩
  · exact Or.inl h
  · right
    simp only [List.mem_map] at hp
    obtain ⟨v, hv, rfl⟩ := hp
    exact toHex4_mem hcp

/-- A string containing `::` has an empty `splitAll` part. -/
theorem mem_nil_splitAll {s : Str}
    (h : containsSub [':', ':'] s = true) : [] ∈ splitAll ':' s := by
  suffices H : ∀ n (s : Str), s.length ≤ n → containsSub [':', ':'] s = true →
      [] ∈ splitAll ':' s from H s.length s le_rfl h
  intro n
  induction n with
  | zero =>
    intro s hlen hc
    cases s with
    | nil => simp [containsSub] at hc
    | cons c t => simp at hlen
  | succ n ih =>
    intro s hlen hc
    cases s with
    | nil => simp [containsSub] at hc
    | cons c t =>
      rw [containsSub, Bool.or_eq_true] at hc
      by_cases hpre : List.isPrefixOf [':', ':'] (c :: t) = true
      · have hct : c = ':' ∧ ∃ u, t = ':' :: u := by
          cases t with
          | nil => simp [List.isPrefixOf] at hpre
          | cons d u =>
            simp [List.isPrefixOf] at hpre
            exact ⟨hpre.1.symm, u, by rw [hpre.2]⟩
        obtain ⟨rfl, u, rfl⟩ := hct
        rw [splitAll, if_pos rfl]
        simp
      · have hrec : containsSub [':', ':'] t = true := by
          rcases hc with h | h
          · exact absurd h hpre
          · exact h
        have hmem := ih t (by simp at hlen; omega) hrec
        rw [splitAll]
        by_cases hcc : c = ':'
        · rw [if_pos hcc]
          exact List.mem_cons_self _ _
        · rw [if_neg hcc]
          cases hsp : splitAll ':' t with
          | nil => exact absurd hsp (splitAll_ne_nil ':' t)
          | cons p ps =>
            rw [hsp] at hmem
            rcases List.mem_cons.mp hmem with hp | hp
            · cases t with
              | nil => simp [containsSub] at hrec
              | cons d u =>
                by_cases hd : d = ':'
                · subst hd
                  rw [splitAll, if_pos rfl] at hsp
                  have hps : ps = splitAll ':' u := by
                    injection hsp with h1 h2
                    exact h2.symm
                  rw [containsSub, Bool.or_eq_true] at hrec
                  rcases hrec with hpre2 | hrec2
                  · cases u with
                    | nil => simp [List.isPrefixOf] at hpre2
                    | cons e u2 =>
                      have he : e = ':' := by
                        simp [List.isPrefixOf] at hpre2
                        exact hpre2.symm
                      subst he
                      rw [hps, splitAll, if_pos rfl]
                      exact List.mem_cons_of_mem _ (List.mem_cons_self _ _)
                  · have := ih u (by simp at hlen; omega) hrec2
                    rw [hps]
                    exact List.mem_cons_of_mem _ this
                · rw [splitAll, if_neg hd] at hsp
                  cases hsp2 : splitAll ':' u with
                  | nil => exact absurd hsp2 (splitAll_ne_nil ':' u)
                  | cons p2 ps2 =>
                    rw [hsp2] at hsp
                    injection hsp with h1 h2
                    rw [← h1] at hp
                    simp at hp
            · exact List.mem_cons_of_mem _ hp

/-- Structure of a valid IPv6 address: eight group values below 2^16. -/
theorem ipv6GroupVals_spec {s : Str}
    (h : is_valid_ipv6_address s false = true) :
    (ipv6GroupVals s).length = 8 ∧ ∀ v ∈ ipv6GroupVals s, v < 65536 := by
  unfold is_valid_ipv6_address at h
  simp only [Bool.false_eq_true, false_and, if_false] at h
  split at h
  · exact absurd h (by simp)
  · rename_i hcolons
    split at h
    · exact absurd h (by simp)
    · rename_i hcc
      split at h
      · exact absurd h (by simp)
      · rename_i hcc2
        push_neg at hcolons hcc
        have hparts : ∀ p ∈ splitAll ':' s, isHexGroup p = true :=
          fun p hp => List.all_eq_true.mp h p hp
        have hplen : (splitAll ':' s).length = s.count ':' + 1 :=
          splitAll_length ':' s
        have hple : (splitAll ':' s).length ≤ 8 := by omega
        have hbound : ∀ p ∈ splitAll ':' s, parseHex p < 65536 := by
          intro p hp
          have hg := hparts p hp
          unfold isHexGroup at hg
          rw [Bool.and_eq_true] at hg
          have hlen4 : p.length ≤ 4 := by
            have := hg.1
            simpa using this
          calc parseHex p < 16 ^ p.length := parseHex_lt p
            _ ≤ 16 ^ 4 := Nat.pow_le_pow_right (by omega) hlen4
            _ = 65536 := by norm_num
        unfold ipv6GroupVals
        dsimp only
        cases hfind : (splitAll ':' s).findIdx? (· = []) with
        | some i =>
          have hi : i < (splitAll ':' s).length :=
            (List.findIdx?_eq_some_iff_findIdx_eq.mp hfind).1
          constructor
          · simp only [List.length_append, List.length_map,
              List.length_replicate, List.length_take, List.length_drop]
            omega
          · intro v hv
            simp only [List.mem_append, List.mem_map,
              List.mem_replicate] at hv
            rcases hv with (⟨p, hp, rfl⟩ | ⟨_, rfl⟩) | ⟨p, hp, rfl⟩
            · exact hbound p (List.mem_of_mem_take hp)
            · omega
            · exact hbound p (List.mem_of_mem_drop hp)
        | none =>
          have hnone : ∀ p ∈ splitAll ':' s, p ≠ [] := by
            intro p hp hpn
            have := List.findIdx?_eq_none_iff.mp hfind p hp
            rw [hpn] at this
            simp at this
          have hfull : s.count ':' = 7 := by
            by_cases h7 : s.count ':' = 7
            · exact h7
            · have hsub := hcc h7
              exact absurd (mem_nil_splitAll hsub)
                (fun hm => hnone [] hm rfl)
          constructor
          · simp only [List.length_map]
            omega
          · intro v hv
            simp only [List.mem_map] at hv
            obtain ⟨p, hp, rfl⟩ := hv
            exact hbound p hp

/-- `Char.ofNat` on small codepoints round-trips through `toNat`. -/
theorem toNat_ofNat_small {n : Nat} (h : n < 55296) :
    (Char.ofNat n).toNat = n := by
  have hv : n.isValidChar := Or.inl h
  simp [Char.ofNat, hv, Char.ofNatAux, Char.toNat, UInt32.toNat,
    BitVec.toNat_ofNatLt]

/-- `upChar` maps a character to a colon only if it was one. -/
theorem upChar_colon_iff (c : Char) : upChar c = ':' ↔ c = ':' := by
  unfold upChar
  split
  · rename_i h
    obtain ⟨h1, h2⟩ := h
    have g1 : 97 ≤ c.toNat := h1
    have g2 : c.toNat ≤ 122 := h2
    have ht : (Char.ofNat (c.toNat - 32)).toNat = c.toNat - 32 :=
      toNat_ofNat_small (by omega)
    constructor
    · intro he
      have : (Char.ofNat (c.toNat - 32)).toNat = (':').toNat := by rw [he]
      rw [ht] at this
      have e : (':').toNat = 58 := by decide
      omega
    · intro he
      have : c.toNat = 58 := by rw [he]; decide
      omega
  · exact Iff.rfl

/-- Arithmetic characterization of `Char.isDigit`. -/
theorem isDigit_iff (c : Char) :
    c.isDigit = true ↔ (48 ≤ c.toNat ∧ c.toNat ≤ 57) := by
  constructor
  · exact isDigit_toNat
  · intro h
    simp [Char.isDigit]
    exact ⟨h.1, h.2⟩

/-- Arithmetic characterization of `hexVal`. -/
theorem hexVal_eq (c : Char) :
    hexVal c =
      if 48 ≤ c.toNat ∧ c.toNat ≤ 57 then c.toNat - 48
      else if 97 ≤ c.toNat ∧ c.toNat ≤ 102 then c.toNat - 87
      else if 65 ≤ c.toNat ∧ c.toNat ≤ 70 then c.toNat - 55
      else 0 := by
  unfold hexVal
  by_cases h1 : 48 ≤ c.toNat ∧ c.toNat ≤ 57
  · rw [if_pos ((isDigit_iff c).mpr h1), if_pos h1]
  · rw [if_neg (fun hd => h1 (isDigit_toNat hd)), if_neg h1]
    by_cases h2 : 97 ≤ c.toNat ∧ c.toNat ≤ 102
    · rw [if_pos (⟨h2.1, h2.2⟩ : 'a' ≤ c ∧ c ≤ 'f'), if_pos h2]
    · rw [if_neg (fun haf : 'a' ≤ c ∧ c ≤ 'f' => h2 ⟨haf.1, haf.2⟩), if_neg h2]
      by_cases h3 : 65 ≤ c.toNat ∧ c.toNat ≤ 70
      · rw [if_pos (⟨h3.1, h3.2⟩ : 'A' ≤ c ∧ c ≤ 'F'), if_pos h3]
      · rw [if_neg (fun hAF : 'A' ≤ c ∧ c ≤ 'F' => h3 ⟨hAF.1, hAF.2⟩),
          if_neg h3]

/-- `hexVal` is insensitive to upper-casing. -/
theorem hexVal_upChar (c : Char) : hexVal (upChar c) = hexVal c := by
  unfold upChar
  split
  · rename_i h
    obtain ⟨h1, h2⟩ := h
    have g1 : 97 ≤ c.toNat := h1
    have g2 : c.toNat ≤ 122 := h2
    have ht : (Char.ofNat (c.toNat - 32)).toNat = c.toNat - 32 :=
      toNat_ofNat_small (by omega)
    rw [hexVal_eq, hexVal_eq, ht]
    split_ifs <;> omega
  · rfl

/-- `splitAll` commutes with a character map that preserves the
separator in both directions. -/
theorem splitAll_map_upChar (s : Str) :
    splitAll ':' (s.map upChar) = (splitAll ':' s).map (List.map upChar) := by
  induction s with
  | nil => rfl
  | cons c t ih =>
    rw [List.map_cons, splitAll, splitAll]
    by_cases hc : c = ':'
    · rw [if_pos ((upChar_colon_iff c).mpr hc), if_pos hc, List.map_cons, ih]
      rfl
    · rw [if_neg (fun h => hc ((upChar_colon_iff c).mp h)), if_neg hc]
      cases hsp : splitAll ':' t with
      | nil => exact absurd hsp (splitAll_ne_nil ':' t)
      | cons p ps =>
        rw [hsp] at ih
        rw [ih, List.map_cons]
        simp [List.map_cons]

/-- `parseHex` is insensitive to upper-casing. -/
theorem parseHex_upper (p : Str) : parseHex (p.map upChar) = parseHex p := by
  unfold parseHex
  rw [List.foldl_map]
  congr 1
  funext a c
  rw [hexVal_upChar]

/-- The group values of an IPv6 string are insensitive to upper-casing. -/
theorem ipv6GroupVals_upper (s : Str) :
    ipv6GroupVals (pyUpper s) = ipv6GroupVals s := by
  unfold ipv6GroupVals pyUpper
  rw [splitAll_map_upChar]
  dsimp only
  have hfind : ((splitAll ':' s).map (List.map upChar)).findIdx? (· = []) =
      (splitAll ':' s).findIdx? (· = []) := by
    induction splitAll ':' s with
    | nil => rfl
    | cons p ps ih =>
      rw [List.map_cons, List.findIdx?_cons, List.findIdx?_cons]
      have : (decide (List.map upChar p = [])) = decide (p = []) := by
        cases p with
        | nil => rfl
        | cons a b => simp
      rw [this]
      split
      · rfl
      · rw [List.findIdx?_start_succ, ih,
          ← @List.findIdx?_start_succ _ ps _ 0]
  rw [hfind, List.length_map]
  have hcong : parseHex ∘ List.map upChar = parseHex := by
    funext p
    exact parseHex_upper p
  cases hf : (splitAll ':' s).findIdx? (· = []) with
  | some i =>
    dsimp only
    rw [← List.map_take, ← List.map_drop, List.map_map, List.map_map, hcong]
  | none =>
    dsimp only
    rw [List.map_map, hcong]

/-! ### Lemmas about valid IPv4 strings and the split primitives. -/

/-- Characters of a valid IPv4 address: digits and periods. -/
theorem valid_ip_chars {s : Str} (h : is_valid_ip_address s = true) :
    ∀ c ∈ s, c.isDigit = true ∨ c = '.' := by
  unfold is_valid_ip_address at h
  dsimp only at h
  rw [Bool.and_eq_true] at h
  intro c hc
  rw [← joinSep_splitAll '.' s] at hc
  rcases mem_joinSep hc with h1 | ⟨p, hp, hcp⟩
  · exact Or.inr h1
  · left
    have hoct := List.all_eq_true.mp h.2 p hp
    unfold isOctet at hoct
    rw [Bool.and_eq_true, Bool.and_eq_true, Bool.and_eq_true] at hoct
    exact List.all_eq_true.mp hoct.1.1.2 c hcp

/-- A valid IPv4 address is non-empty. -/
theorem valid_ip_ne_nil {s : Str} (h : is_valid_ip_address s = true) :
    s ≠ [] := by
  intro hnil
  subst hnil
  exact absurd h (by decide)

/-- A valid IPv4 address does not contain a slash. -/
theorem valid_ip_no_slash {s : Str} (h : is_valid_ip_address s = true) :
    '/' ∉ s := by
  intro hm
  rcases valid_ip_chars h '/' hm with hd | hdot
  · exact (digit_ne hd).2.1 rfl
  · simp at hdot

/-- A valid IPv4 address is not the wildcard string. -/
theorem valid_ip_ne_star {s : Str} (h : is_valid_ip_address s = true) :
    s ≠ ['*'] := by
  intro hs
  have : '*' ∈ s := by simp [hs]
  rcases valid_ip_chars h '*' this with hd | hdot
  · exact (digit_ne hd).2.2.2.2.1 rfl
  · simp at hdot

/-- Head of a colon-join whose first part is non-empty, any separator. -/
theorem joinSep_head_any (sep : Char) {q : Str} (hq : q ≠ [])
    (qs : List Str) : (joinSep sep (q :: qs)).head? = q.head? := by
  cases qs with
  | nil => rfl
  | cons r rs =>
    rw [joinSep_cons sep q (by simp)]
    cases q with
    | nil => exact absurd rfl hq
    | cons a b => rfl

/-- A valid IPv4 address starts with a digit. -/
theorem valid_ip_head {s : Str} (h : is_valid_ip_address s = true) :
    ∃ c, s.head? = some c ∧ c.isDigit = true := by
  have hjoin := joinSep_splitAll '.' s
  have hv := h
  unfold is_valid_ip_address at hv
  dsimp only at hv
  rw [Bool.and_eq_true] at hv
  cases hsp : splitAll '.' s with
  | nil => exact absurd hsp (splitAll_ne_nil '.' s)
  | cons p1 rest =>
    have hoct := List.all_eq_true.mp hv.2 p1 (by rw [hsp]; simp)
    unfold isOctet at hoct
    rw [Bool.and_eq_true, Bool.and_eq_true, Bool.and_eq_true] at hoct
    have hp1 : p1 ≠ [] := by
      have := hoct.1.1.1
      cases p1 with
      | nil => simp at this
      | cons a b => simp
    rw [hsp] at hjoin
    cases hp1c : p1 with
    | nil => exact absurd hp1c hp1
    | cons a b =>
      refine ⟨a, ?_, ?_⟩
      · rw [← hjoin, joinSep_head_any '.' hp1 rest, hp1c]
        rfl
      · exact List.all_eq_true.mp hoct.1.1.2 a (by rw [hp1c]; simp)

/-- No period means not a valid IPv4 address. -/
theorem not_valid_ip_of_no_dot {s : Str} (h : '.' ∉ s) :
    is_valid_ip_address s = false := by
  unfold is_valid_ip_address
  dsimp only
  rw [splitAll_of_not_mem h]
  simp

/-- `splitFirst` misses when the separator is absent. -/
theorem splitFirst_eq_none {sep : Char} {s : Str} (h : sep ∉ s) :
    splitFirst sep s = none := by
  induction s with
  | nil => rfl
  | cons c t ih =>
    have hc : c ≠ sep := fun hcc => h (by simp [hcc])
    rw [splitFirst, if_neg hc, ih (fun hm => h (by simp [hm]))]

/-- `splitFirst` splits at a separator following a separator-free part. -/
theorem splitFirst_append {sep : Char} {a : Str} (h : sep ∉ a) (b : Str) :
    splitFirst sep (a ++ sep :: b) = some (a, b) := by
  induction a with
  | nil => simp [splitFirst]
  | cons c t ih =>
    have hc : c ≠ sep := fun hcc => h (by simp [hcc])
    rw [List.cons_append, splitFirst, if_neg hc,
      ih (fun hm => h (by simp [hm]))]

/-- `splitLast` splits at a separator preceding a separator-free part. -/
theorem splitLast_append {sep : Char} (a : Str) {b : Str} (h : sep ∉ b) :
    splitLast sep (a ++ sep :: b) = some (a, b) := by
  unfold splitLast
  have hrev : (a ++ sep :: b).reverse = b.reverse ++ sep :: a.reverse := by
    rw [List.reverse_append, List.reverse_cons, List.append_assoc]
    simp
  rw [hrev, splitFirst_append (fun hm => h (List.mem_reverse.mp hm))]
  simp

/-- Single-character substring containment is membership. -/
theorem containsSub_singleton {c : Char} {s : Str} (h : c ∈ s) :
    containsSub [c] s = true := by
  induction s with
  | nil => simp at h
  | cons d t ih =>
    rw [containsSub, Bool.or_eq_true]
    rcases List.mem_cons.mp h with rfl | hm
    · left
      simp [List.isPrefixOf]
    · exact Or.inr (ih hm)

/-- A string with a non-digit member fails `isdigit`. -/
theorem isDigitStr_eq_false {s : Str} {c : Char} (hc : c ∈ s)
    (hnd : c.isDigit = false) : isDigitStr s = false := by
  unfold isDigitStr
  rw [Bool.and_eq_false_iff]
  right
  rw [← Bool.not_eq_true, List.all_eq_true]
  intro hall
  rw [hall c hc] at hnd
  simp at hnd

/-- `natToStr` is never the wildcard string. -/
theorem natToStr_ne_star (n : Nat) : natToStr n ≠ ['*'] := by
  intro he
  have : '*' ∈ natToStr n := by simp [he]
  exact (digit_ne (natToStr_all_digit n '*' this)).2.2.2.2.1 rfl

/-- Well-formedness of the address fields produced by `_apply_addrspec`:
one disjunct per address shape. -/
def AddrWfC (addr : Option Str) (atype : AddressType) (bits : Option Nat)
    (mask : Option Str) : Prop :=
  (atype = AddressType.wildcard ∧ addr = none ∧ bits = none ∧ mask = none) ∨
  (atype = AddressType.ipv4 ∧ mask = none ∧ ∃ a, addr = some a ∧
    is_valid_ip_address a = true ∧ ∃ b, bits = some b ∧ b ≤ 32) ∨
  (atype = AddressType.ipv4 ∧ bits = none ∧ ∃ a, addr = some a ∧
    is_valid_ip_address a = true ∧ ∃ m, mask = some m ∧
    is_valid_ip_address m = true ∧ get_masked_bits m = none) ∨
  (atype = AddressType.ipv6 ∧ mask = none ∧
    (∃ b, bits = some b ∧ b ≤ 128) ∧
    ∃ gs : List Nat, gs.length = 8 ∧ (∀ v ∈ gs, v < 65536) ∧
      addr = some (canonIpv6 gs))

/-- A bit count recovered from a mask is at most 32. -/
theorem get_masked_bits_le {m : Str} {b : Nat}
    (h : get_masked_bits m = some b) : b ≤ 32 := by
  unfold get_masked_bits at h
  split at h
  · have := List.mem_of_find?_eq_some h
    rw [List.mem_range] at this
    omega
  · simp at h

/-- Inversion of a successful `_apply_addrspec`. -/
theorem apply_addrspec_wf {as : Str} {addr : Option Str} {atype : AddressType}
    {bits : Option Nat} {mask : Option Str}
    (h : apply_addrspec as = Except.ok (addr, atype, bits, mask)) :
    AddrWfC addr atype bits mask := by
  have hmain : ∀ (base : Str) (extra : Option Str),
      (if as = ['*'] then
        Except.ok ((none : Option Str), AddressType.wildcard,
          (none : Option Nat), (none : Option Str))
      else if is_valid_ip_address base then
        match extra with
        | none => Except.ok (some base, AddressType.ipv4, some 32, none)
        | some ex =>
          if is_valid_ip_address ex then
            match get_masked_bits ex with
            | some b => Except.ok (some base, AddressType.ipv4, some b, none)
            | none => Except.ok (some base, AddressType.ipv4, none, some ex)
          else if isDigitStr ex then
            if parseNat ex > 32 then Except.error PyErr.valueError
            else Except.ok (some base, AddressType.ipv4, some (parseNat ex), none)
          else Except.error PyErr.valueError
      else if base.head? = some '[' ∧ base.getLast? = some ']' ∧
          is_valid_ipv6_address ((base.drop 1).dropLast) false then
        match extra with
        | none =>
          Except.ok (some (expand_ipv6_address (pyUpper ((base.drop 1).dropLast))),
            AddressType.ipv6, some 128, none)
        | some ex =>
          if isDigitStr ex then
            if parseNat ex > 128 then Except.error PyErr.valueError
            else
              Except.ok (some (expand_ipv6_address (pyUpper ((base.drop 1).dropLast))),
                AddressType.ipv6, some (parseNat ex), none)
          else Except.error PyErr.valueError
      else Except.error PyErr.valueError) = Except.ok (addr, atype, bits, mask) →
      AddrWfC addr atype bits mask := by
    intro base extra hb
    split at hb
    · simp only [Except.ok.injEq, Prod.mk.injEq] at hb
      obtain ⟨rfl, rfl, rfl, rfl⟩ := hb
      exact Or.inl ⟨rfl, rfl, rfl, rfl⟩
    · split at hb
      · rename_i hip
        cases extra with
        | none =>
          simp only [Except.ok.injEq, Prod.mk.injEq] at hb
          obtain ⟨rfl, rfl, rfl, rfl⟩ := hb
          exact Or.inr (Or.inl ⟨rfl, rfl, base, rfl, hip, 32, rfl, by omega⟩)
        | some ex =>
          dsimp only at hb
          split at hb
          · rename_i hipex
            split at hb
            · rename_i b hgb
              simp only [Except.ok.injEq, Prod.mk.injEq] at hb
              obtain ⟨rfl, rfl, rfl, rfl⟩ := hb
              exact Or.inr (Or.inl ⟨rfl, rfl, base, rfl, hip, b, rfl,
                get_masked_bits_le hgb⟩)
            · rename_i hgb
              simp only [Except.ok.injEq, Prod.mk.injEq] at hb
              obtain ⟨rfl, rfl, rfl, rfl⟩ := hb
              exact Or.inr (Or.inr (Or.inl ⟨rfl, rfl, base, rfl, hip, ex, rfl,
                hipex, hgb⟩))
          · split at hb
            · split at hb
              · exact absurd hb (by simp)
              · rename_i hgt
                simp only [Except.ok.injEq, Prod.mk.injEq] at hb
                obtain ⟨rfl, rfl, rfl, rfl⟩ := hb
                exact Or.inr (Or.inl ⟨rfl, rfl, base, rfl, hip, parseNat ex,
                  rfl, by omega⟩)
            · exact absurd hb (by simp)
      · split at hb
        · rename_i hip6
          obtain ⟨hbrk1, hbrk2, hv6⟩ := hip6
          have hgs := ipv6GroupVals_spec hv6
          have hup := ipv6GroupVals_upper ((base.drop 1).dropLast)
          have hexp : expand_ipv6_address (pyUpper ((base.drop 1).dropLast)) =
              canonIpv6 (ipv6GroupVals (pyUpper ((base.drop 1).dropLast))) := rfl
          cases extra with
          | none =>
            simp only [Except.ok.injEq, Prod.mk.injEq] at hb
            obtain ⟨rfl, rfl, rfl, rfl⟩ := hb
            refine Or.inr (Or.inr (Or.inr ⟨rfl, rfl, ⟨128, rfl, by omega⟩,
              ipv6GroupVals (pyUpper ((base.drop 1).dropLast)), ?_, ?_, ?_⟩))
            · rw [hup]
              exact hgs.1
            · rw [hup]
              exact hgs.2
            · rw [hexp]
          | some ex =>
            dsimp only at hb
            split at hb
            · split at hb
              · exact absurd hb (by simp)
              · rename_i hgt
                simp only [Except.ok.injEq, Prod.mk.injEq] at hb
                obtain ⟨rfl, rfl, rfl, rfl⟩ := hb
                refine Or.inr (Or.inr (Or.inr ⟨rfl, rfl,
                  ⟨parseNat ex, rfl, by omega⟩,
                  ipv6GroupVals (pyUpper ((base.drop 1).dropLast)), ?_, ?_, ?_⟩))
                · rw [hup]
                  exact hgs.1
                · rw [hup]
                  exact hgs.2
                · rw [hexp]
            · exact absurd hb (by simp)
        · exact absurd hb (by simp)
  unfold apply_addrspec at h
  cases hsp : splitFirst '/' as with
  | some ab =>
    obtain ⟨base, extra⟩ := ab
    rw [hsp] at h
    exact hmain base (some extra) h
  | none =>
    rw [hsp] at h
    exact hmain as none h

/-- Port normalization introduced by printing and re-parsing: a `0..65535`
range prints as the wildcard `*`, which parses back as `1..65535`.  All
other rules re-parse to themselves. -/
def normRule (r : ExitPolicyRule) : ExitPolicyRule :=
  if r.min_port = 0 ∧ r.max_port = 65535 then { r with min_port := 1 }
  else r

/-- Re-parsing the printed port section yields the normalized ports. -/
theorem apply_portspec_print {r : ExitPolicyRule}
    (hb : r.min_port ≤ r.max_port ∧ r.max_port ≤ 65535) :
    apply_portspec (ruleStrPort r) =
      Except.ok ((normRule r).min_port, (normRule r).max_port) := by
  unfold ruleStrPort
  by_cases hw : r.is_port_wildcard = true
  · rw [if_pos hw]
    have heval : apply_portspec ['*'] = Except.ok (1, 65535) := by decide
    rw [heval]
    unfold ExitPolicyRule.is_port_wildcard at hw
    rw [Bool.and_eq_true, Bool.or_eq_true] at hw
    simp only [decide_eq_true_eq] at hw
    unfold normRule
    rcases hw.1 with h0 | h1
    · rw [if_pos ⟨h0, hw.2⟩]
      simp [hw.2]
    · rw [if_neg (by omega)]
      simp [h1, hw.2]
  · rw [if_neg hw]
    have hnw : ¬ ((r.min_port = 0 ∨ r.min_port = 1) ∧ r.max_port = 65535) := by
      intro hc
      apply hw
      unfold ExitPolicyRule.is_port_wildcard
      rw [Bool.and_eq_true, Bool.or_eq_true]
      simp only [decide_eq_true_eq]
      exact hc
    have hnorm : normRule r = r := by
      unfold normRule
      rw [if_neg (fun hc => hnw ⟨Or.inl hc.1, hc.2⟩)]
    rw [hnorm]
    by_cases heq : r.min_port = r.max_port
    · rw [if_pos heq]
      unfold apply_portspec
      rw [if_neg (natToStr_ne_star r.min_port),
        if_pos (isDigitStr_natToStr r.min_port),
        if_pos (is_valid_port_str_natToStr (by omega))]
      rw [parseNat_natToStr, heq]
    · rw [if_neg heq]
      have hmm : r.min_port < r.max_port := by omega
      have hmem : '-' ∈ natToStr r.min_port ++ '-' :: natToStr r.max_port := by
        simp
      have hnd : ('-').isDigit = false := by decide
      have hnotmem : '-' ∉ natToStr r.min_port := fun hm =>
        (digit_ne (natToStr_all_digit _ '-' hm)).2.2.1 rfl
      unfold apply_portspec
      rw [if_neg (by
        intro he
        rw [he] at hmem
        simp at hmem)]
      rw [if_neg (by simp [isDigitStr_eq_false hmem hnd])]
      rw [if_pos (containsSub_singleton hmem)]
      rw [splitFirst_append hnotmem]
      dsimp only
      rw [if_pos ⟨is_valid_port_str_natToStr (by omega),
        is_valid_port_str_natToStr (by omega)⟩]
      rw [parseNat_natToStr, parseNat_natToStr, if_neg (by omega)]

/-- The canonical IPv6 rendering contains no slash. -/
theorem canon_no_slash (gs : List Nat) : '/' ∉ canonIpv6 gs := by
  intro hm
  rcases mem_canonIpv6 hm with h | ⟨_, _, h2, _⟩
  · exact absurd h (by decide)
  · exact h2 rfl

/-- The canonical IPv6 rendering contains no period. -/
theorem canon_no_dot (gs : List Nat) : '.' ∉ canonIpv6 gs := by
  intro hm
  rcases mem_canonIpv6 hm with h | ⟨_, _, _, h3, _⟩
  · exact absurd h (by decide)
  · exact h3 rfl

/-- Decomposition of the printed address section: it is an addrspec followed
by the separating colon, the addrspec re-parses to the rule's address
fields, and it starts with a non-whitespace character. -/
theorem ruleStrAddr_decomp {r : ExitPolicyRule}
    (hwf : AddrWfC r.address r.addressType r.maskedBits r.maskStr) :
    ∃ as : Str, ruleStrAddr r = as ++ [':'] ∧
      apply_addrspec as =
        Except.ok (r.address, r.addressType, r.maskedBits, r.maskStr) ∧
      ∃ c, as.head? = some c ∧ isPySpace c = false := by
  rcases hwf with ⟨ht, ha, hb, hm⟩ | ⟨ht, hm, a, ha, hvip, b, hbits, hble⟩ |
    ⟨ht, hb, a, ha, hvip, m, hmask, hvm, hgm⟩ |
    ⟨ht, hm, ⟨b, hbits, hble⟩, gs, hglen, hgb, ha⟩
  · -- wildcard
    refine ⟨['*'], ?_, ?_, '*', rfl, by decide⟩
    · unfold ruleStrAddr
      rw [if_pos (by simp [ExitPolicyRule.is_address_wildcard, ht])]
      rfl
    · rw [ha, hb, hm, ht]
      decide
  · -- IPv4 with mask bits
    have hnw : r.is_address_wildcard = false := by
      simp [ExitPolicyRule.is_address_wildcard, ht]
    have hgat : r.get_address_type = AddressType.ipv4 := ht
    have hhead := valid_ip_head hvip
    obtain ⟨c0, hc0, hc0d⟩ := hhead
    have hslash := valid_ip_no_slash hvip
    by_cases h32 : b = 32
    · subst h32
      refine ⟨a, ?_, ?_, c0, hc0, (digit_ne hc0d).2.2.2.2.2.2⟩
      · unfold ruleStrAddr
        rw [if_neg (by simp [hnw])]
        dsimp only
        rw [hgat, ha]
        rw [if_pos (Or.inl ⟨rfl, hbits⟩)]
        rfl
      · unfold apply_addrspec
        rw [splitFirst_eq_none hslash]
        dsimp only
        rw [if_neg (valid_ip_ne_star hvip), if_pos hvip, ha, hbits, hm, ht]
    · refine ⟨a ++ '/' :: natToStr b, ?_, ?_, c0, ?_,
        (digit_ne hc0d).2.2.2.2.2.2⟩
      · unfold ruleStrAddr
        rw [if_neg (by simp [hnw])]
        dsimp only
        rw [hgat, ha]
        rw [if_neg (by
          rintro (⟨_, hcc⟩ | ⟨hcc, _⟩)
          · rw [hbits] at hcc
            simp at hcc
            exact h32 hcc
          · simp at hcc)]
        rw [hbits]
        simp
      · unfold apply_addrspec
        rw [splitFirst_append hslash]
        dsimp only
        rw [if_neg (by
          intro he
          have : '/' ∈ a ++ '/' :: natToStr b := by simp
          rw [he] at this
          simp at this)]
        rw [if_pos hvip,
          if_neg (by
            rw [not_valid_ip_of_no_dot (fun hd =>
              (digit_ne (natToStr_all_digit b '.' hd)).2.2.2.1 rfl)]
            simp),
          if_pos (isDigitStr_natToStr b), parseNat_natToStr,
          if_neg (by omega), ha, hbits, hm, ht]
      · cases hac : a with
        | nil => exact absurd hac (valid_ip_ne_nil hvip)
        | cons x t =>
          rw [hac] at hc0
          simpa using hc0
  · -- IPv4 with a custom mask
    have hnw : r.is_address_wildcard = false := by
      simp [ExitPolicyRule.is_address_wildcard, ht]
    have hgat : r.get_address_type = AddressType.ipv4 := ht
    obtain ⟨c0, hc0, hc0d⟩ := valid_ip_head hvip
    have hslash := valid_ip_no_slash hvip
    refine ⟨a ++ '/' :: m, ?_, ?_, c0, ?_, (digit_ne hc0d).2.2.2.2.2.2⟩
    · unfold ruleStrAddr
      rw [if_neg (by simp [hnw])]
      dsimp only
      rw [hgat, ha]
      rw [if_neg (by
        rintro (⟨_, hcc⟩ | ⟨hcc, _⟩)
        · rw [hb] at hcc
          simp at hcc
        · simp at hcc)]
      rw [hb]
      have hgms : r.get_mask_str = some m := by
        unfold ExitPolicyRule.get_mask_str
        rw [hmask]
      rw [hgms]
      simp
    · unfold apply_addrspec
      rw [splitFirst_append hslash]
      dsimp only
      rw [if_neg (by
        intro he
        have : '/' ∈ a ++ '/' :: m := by simp
        rw [he] at this
        simp at this)]
      rw [if_pos hvip, if_pos hvm, hgm, ha, hb, hmask, ht]
    · cases hac : a with
      | nil => exact absurd hac (valid_ip_ne_nil hvip)
      | cons x t =>
        rw [hac] at hc0
        simpa using hc0
  · -- IPv6
    have hnw : r.is_address_wildcard = false := by
      simp [ExitPolicyRule.is_address_wildcard, ht]
    have hgat : r.get_address_type = AddressType.ipv6 := ht
    have hA := ha
    have hbrk_no_slash : '/' ∉ '[' :: (canonIpv6 gs ++ [']']) := by
      intro hmem
      rcases List.mem_cons.mp hmem with h | h
      · simp at h
      · rcases List.mem_append.mp h with h | h
        · exact canon_no_slash gs h
        · simp at h
    have hbrk_no_dot : '.' ∉ '[' :: (canonIpv6 gs ++ [']']) := by
      intro hmem
      rcases List.mem_cons.mp hmem with h | h
      · simp at h
      · rcases List.mem_append.mp h with h | h
        · exact canon_no_dot gs h
        · simp at h
    have hbrk_ip : is_valid_ip_address ('[' :: (canonIpv6 gs ++ [']'])) = false :=
      not_valid_ip_of_no_dot hbrk_no_dot
    have hbrk_star : ('[' :: (canonIpv6 gs ++ [']'])) ≠ ['*'] := by
      simp
    have hlast : ('[' :: (canonIpv6 gs ++ [']'])).getLast? = some ']' := by
      show (('[' :: canonIpv6 gs) ++ [']']).getLast? = some ']'
      exact List.getLast?_concat _
    have hinner : ((('[' :: (canonIpv6 gs ++ [']'])).drop 1).dropLast) =
        canonIpv6 gs := by
      show (canonIpv6 gs ++ [']']).dropLast = canonIpv6 gs
      exact List.dropLast_concat
    have hvalid6 := canonIpv6_valid hglen
    have hexpand : expand_ipv6_address (pyUpper (canonIpv6 gs)) =
        canonIpv6 gs := by
      rw [pyUpper_canon, expand_canon hglen hgb]
    by_cases h128 : b = 128
    · subst h128
      refine ⟨'[' :: (canonIpv6 gs ++ [']']), ?_, ?_, '[', rfl, by decide⟩
      · unfold ruleStrAddr
        rw [if_neg (by simp [hnw])]
        dsimp only
        rw [hgat, ha]
        rw [if_pos (Or.inr ⟨rfl, hbits⟩)]
        rfl
      · unfold apply_addrspec
        rw [splitFirst_eq_none hbrk_no_slash]
        dsimp only
        rw [if_neg hbrk_star, hbrk_ip]
        simp only [Bool.false_eq_true, if_false]
        rw [if_pos ⟨rfl, hlast, by rw [hinner]; exact hvalid6⟩]
        rw [hinner, hexpand, ha, hbits, hm, ht]
    · refine ⟨('[' :: (canonIpv6 gs ++ [']'])) ++ '/' :: natToStr b, ?_, ?_,
        '[', rfl, by decide⟩
      · unfold ruleStrAddr
        rw [if_neg (by simp [hnw])]
        dsimp only
        rw [hgat, ha]
        rw [if_neg (by
          rintro (⟨hcc, _⟩ | ⟨_, hcc⟩)
          · simp at hcc
          · rw [hbits] at hcc
            simp at hcc
            exact h128 hcc)]
        rw [hbits]
        simp
      · unfold apply_addrspec
        rw [splitFirst_append hbrk_no_slash]
        dsimp only
        rw [if_neg (by
          intro he
          have : '/' ∈ ('[' :: (canonIpv6 gs ++ [']'])) ++ '/' :: natToStr b := by
            simp
          rw [he] at this
          simp at this)]
        rw [hbrk_ip]
        simp only [Bool.false_eq_true, if_false]
        rw [if_pos ⟨rfl, hlast, by rw [hinner]; exact hvalid6⟩]
        rw [if_pos (isDigitStr_natToStr b), parseNat_natToStr,
          if_neg (by omega), hinner, hexpand, ha, hbits, hm, ht]

/-- The printed port section never contains a colon. -/
theorem ruleStrPort_no_colon (r : ExitPolicyRule) : ':' ∉ ruleStrPort r := by
  unfold ruleStrPort
  intro hm
  split_ifs at hm
  · simp at hm
  · exact (digit_ne (natToStr_all_digit _ _ hm)).1 rfl
  · rcases List.mem_append.mp hm with h | h
    · exact (digit_ne (natToStr_all_digit _ _ h)).1 rfl
    · rcases List.mem_cons.mp h with h | h
      · exact absurd h (by decide)
      · exact (digit_ne (natToStr_all_digit _ _ h)).1 rfl

/-- `normRule` keeps every field except possibly `min_port`. -/
theorem normRule_fields (r : ExitPolicyRule) :
    (normRule r).is_accept = r.is_accept ∧
    (normRule r).address = r.address ∧
    (normRule r).addressType = r.addressType ∧
    (normRule r).maskedBits = r.maskedBits ∧
    (normRule r).maskStr = r.maskStr ∧
    (normRule r).max_port = r.max_port := by
  unfold normRule
  split_ifs <;> exact ⟨rfl, rfl, rfl, rfl, rfl, rfl⟩

/-- Re-parsing the body of a printed rule yields the normalized rule (with
the `is_accept` flag the dispatcher passes). -/
theorem parseRuleBody_print {r : ExitPolicyRule} {rule : Str} (acc : Bool)
    (hdrop : rule.drop 6 = ' ' :: (ruleStrAddr r ++ ruleStrPort r))
    (hwf : AddrWfC r.address r.addressType r.maskedBits r.maskStr)
    (hb : r.min_port ≤ r.max_port ∧ r.max_port ≤ 65535) :
    parseRuleBody rule acc =
      Except.ok { normRule r with is_accept := acc } := by
  obtain ⟨as, hsplit, happ, c0, hhead, hns⟩ := ruleStrAddr_decomp hwf
  unfold parseRuleBody
  rw [hdrop]
  cases as with
  | nil => simp at hhead
  | cons x t =>
  have hx : x = c0 := by simpa using hhead
  subst hx
  have hXshape : ruleStrAddr r ++ ruleStrPort r =
      (x :: t) ++ ':' :: ruleStrPort r := by
    rw [hsplit, List.append_assoc]
    rfl
  rw [hXshape]
  have hlstrip : pyLstrip (' ' :: ((x :: t) ++ ':' :: ruleStrPort r)) =
      (x :: t) ++ ':' :: ruleStrPort r := by
    show List.dropWhile isPySpace
        (' ' :: x :: (t ++ ':' :: ruleStrPort r)) =
      x :: (t ++ ':' :: ruleStrPort r)
    rw [List.dropWhile_cons_of_pos (by decide),
      List.dropWhile_cons_of_neg (by rw [hns]; simp)]
  rw [if_neg (by
    rintro (hc | hc)
    · exact hc rfl
    · rw [hlstrip] at hc
      simp at hc)]
  dsimp only
  rw [show List.drop 1 (' ' :: ((x :: t) ++ ':' :: ruleStrPort r)) =
    (x :: t) ++ ':' :: ruleStrPort r from rfl]
  have hmem : ':' ∈ (x :: t) ++ ':' :: ruleStrPort r := by simp
  rw [if_neg (not_not_intro (containsSub_singleton hmem))]
  rw [splitLast_append (x :: t) (ruleStrPort_no_colon r)]
  dsimp only
  rw [happ]
  dsimp only
  rw [apply_portspec_print hb]
  dsimp only
  obtain ⟨h1, h2, h3, h4, h5, _⟩ := normRule_fields r
  rw [← h2, ← h3, ← h4, ← h5]

/-- Re-parsing a printed rule yields the normalized rule. -/
theorem ruleStr_parses {r : ExitPolicyRule}
    (hwf : AddrWfC r.address r.addressType r.maskedBits r.maskStr)
    (hb : r.min_port ≤ r.max_port ∧ r.max_port ≤ 65535) :
    parseRule (ruleStr r) = Except.ok (normRule r) := by
  have hpre : ∀ (l t : Str), List.isPrefixOf l (l ++ t) = true := by
    intro l t
    rw [List.isPrefixOf_iff_prefix]
    exact List.prefix_append l t
  unfold ruleStr parseRule
  by_cases hacc : r.is_accept = true
  · rw [if_pos hacc, List.append_assoc]
    rw [if_pos (by
      rw [show ("accept ".toList : Str) = "accept".toList ++ [' '] from rfl,
        List.append_assoc]
      exact hpre _ _)]
    rw [parseRuleBody_print true
      (show List.drop 6
          (("accept ".toList : Str) ++ (ruleStrAddr r ++ ruleStrPort r)) =
        ' ' :: (ruleStrAddr r ++ ruleStrPort r) from rfl) hwf hb]
    rw [show (true : Bool) = (normRule r).is_accept by
      rw [(normRule_fields r).1, hacc]]
  · have hacc' : r.is_accept = false := by simpa using hacc
    rw [if_neg hacc, List.append_assoc]
    have hne : List.isPrefixOf ("accept".toList)
        (("reject ".toList : Str) ++ (ruleStrAddr r ++ ruleStrPort r)) =
        false := rfl
    rw [if_neg (by rw [hne]; simp)]
    rw [if_pos (by
      rw [show ("reject ".toList : Str) = "reject".toList ++ [' '] from rfl,
        List.append_assoc]
      exact hpre _ _)]
    rw [parseRuleBody_print false
      (show List.drop 6
          (("reject ".toList : Str) ++ (ruleStrAddr r ++ ruleStrPort r)) =
        ' ' :: (ruleStrAddr r ++ ruleStrPort r) from rfl) hwf hb]
    rw [show (false : Bool) = (normRule r).is_accept by
      rw [(normRule_fields r).1, hacc']]

/-- `is_match` only depends on the rule through its address fields and its
`port_section`. -/
theorem is_match_congr {s t : ExitPolicyRule}
    (h1 : s.address = t.address) (h2 : s.addressType = t.addressType)
    (h3 : s.maskedBits = t.maskedBits) (h4 : s.maskStr = t.maskStr)
    (h5 : ∀ p', s.port_section p' = t.port_section p')
    (a : Option Str) (p : Option Nat) :
    s.is_match a p = t.is_match a p := by
  have hmb : ∀ a' p', s.match_body a' p' = t.match_body a' p' := by
    intro a' p'
    unfold ExitPolicyRule.match_body
    rw [show s.is_address_wildcard = t.is_address_wildcard by
        unfold ExitPolicyRule.is_address_wildcard; rw [h2],
      show s.address_bin = t.address_bin by
        unfold ExitPolicyRule.address_bin ExitPolicyRule.mask_bin
          ExitPolicyRule.get_mask_str
        rw [h1, h2, h3, h4],
      show s.mask_bin = t.mask_bin by
        unfold ExitPolicyRule.mask_bin ExitPolicyRule.get_mask_str
        rw [h2, h3, h4],
      h5 p']
  unfold ExitPolicyRule.is_match
  cases a with
  | none =>
    dsimp only
    exact hmb none p
  | some av =>
    dsimp only
    rw [show s.get_address_type = t.get_address_type by
      unfold ExitPolicyRule.get_address_type; exact h2]
    split_ifs <;> first | rfl | exact hmb _ _

/-- Normalization does not change what a rule matches: when the ports are
rewritten from `0-65535` to `1-65535` both forms are port wildcards. -/
theorem is_match_normRule (r : ExitPolicyRule) (a : Option Str)
    (p : Option Nat) : (normRule r).is_match a p = r.is_match a p := by
  unfold normRule
  split_ifs with h
  · have hps : ∀ p', (⟨r.is_accept, r.address, r.addressType, r.maskedBits,
        r.maskStr, 1, r.max_port⟩ : ExitPolicyRule).port_section p' =
        r.port_section p' := by
      intro p'
      unfold ExitPolicyRule.port_section ExitPolicyRule.is_port_wildcard
      simp [h.1, h.2]
    exact @is_match_congr ⟨r.is_accept, r.address, r.addressType,
      r.maskedBits, r.maskStr, 1, r.max_port⟩ r rfl rfl rfl rfl hps a p
  · rfl

/-! ### Claim theorems -/

/-- C1: For the policy `ExitPolicy("accept *:80", "accept *:443",
"reject *:*")`, `summary()` returns the string `"accept 80, 443"`,
`can_exit_to("75.119.206.243", 80)` returns `True`, and
`can_exit_to("75.119.206.243", 22)` returns `False`. -/
theorem claim_C1 :
    (mkExitPolicy
        ["accept *:80".toList, "accept *:443".toList, "reject *:*".toList]).map
        (fun p =>
          (p.summary, p.can_exit_to (some "75.119.206.243".toList) (some 80),
           p.can_exit_to (some "75.119.206.243".toList) (some 22))) =
      Except.ok ("accept 80, 443".toList, Except.ok true, Except.ok false) := by
  decide

/-- C9: Reply messages are never empty: constructing a `ControlMessage` from
an empty sequence of parsed lines fails with `ValueError`, and every
successfully constructed `ControlMessage` has length at least 1. -/
theorem claim_C9 (parsed : List ReplyLine) (raw : Str) :
    (parsed = [] → mkControlMessage parsed raw = Except.error PyErr.valueError) ∧
    ∀ m : ControlMessage, mkControlMessage parsed raw = Except.ok m → 1 ≤ m.len := by
  constructor
  · intro h
    subst h
    rfl
  · intro m hm
    unfold mkControlMessage at hm
    split at hm
    · exact absurd hm (by simp)
    · rename_i hne
      simp only [Except.ok.injEq] at hm
      subst hm
      simp only [ControlMessage.len]
      have := List.length_pos.mpr hne
      omega

/-- C9 witness: the empty line list is rejected and a one-line message has
length 1. -/
theorem claim_C9_witness :
    mkControlMessage [] [] = Except.error PyErr.valueError ∧
    1 ≤ ControlMessage.len { parsed_content := [("250".toList, " ".toList, "OK".toList)],
                             raw_content := [] } := by
  refine ⟨(claim_C9 [] []).1 rfl, ?_⟩
  exact (claim_C9 [("250".toList, " ".toList, "OK".toList)] []).2 _ rfl

/-- C6: `pop(quoted=True)` on a non-empty remainder that does not begin with
a properly quoted value raises `ValueError`, and `pop` or `pop_mapping` on
an empty remainder raises `IndexError`. -/
theorem claim_C6 (remainder : Str) (escaped : Bool) (hne : remainder ≠ [])
    (hq : is_next_quoted remainder escaped = false) :
    pop remainder true escaped = Except.error PyErr.valueError ∧
    (∀ q e : Bool, pop [] q e = Except.error PyErr.indexError) ∧
    (∀ q e : Bool, pop_mapping [] q e = Except.error PyErr.indexError) := by
  refine ⟨?_, fun q e => rfl, fun q e => rfl⟩
  unfold pop parse_entry
  rw [if_neg hne]
  unfold is_next_quoted at hq
  cases hg : get_quote_indices remainder escaped with
  | mk first second =>
    rw [hg] at hq
    simp only [hg]
    cases first with
    | none => rfl
    | some i =>
      cases i with
      | zero =>
        cases second with
        | none => rfl
        | some j => simp at hq
      | succ k => rfl

/-- C6 witness: the theorem applied to the unquoted remainder `abc`. -/
theorem claim_C6_witness :
    pop ("abc".toList) true false = Except.error PyErr.valueError ∧
    (∀ q e : Bool, pop [] q e = Except.error PyErr.indexError) ∧
    (∀ q e : Bool, pop_mapping [] q e = Except.error PyErr.indexError) :=
  claim_C6 ("abc".toList) false (by decide) (by decide)

/-- C2: For every `ExitPolicy` and every valid `(address, port)` probe,
`can_exit_to` returns the `is_accept` flag of the first rule in the policy's
order whose `is_match` accepts the probe, and returns the policy's
default-allowed boolean when no rule matches. -/
theorem claim_C2 (pol : ExitPolicy) (a : Option Str) (port : Option Nat)
    (hv : probeValid a port = true) :
    pol.can_exit_to a port =
      Except.ok
        (match pol.rules.find? (fun r => firstMatchBool r a port) with
         | some r => r.is_accept
         | none => pol.is_allowed_default) :=
  canExitLoop_spec pol.is_allowed_default a port hv pol.rules

/-- C2 witness: the theorem applied to a one-rule policy and the probe
`("1.2.3.4", 22)`. -/
theorem claim_C2_witness :
    ExitPolicy.can_exit_to
        { rules := [microRule false 22 22], is_allowed_default := true }
        (some "1.2.3.4".toList) (some 22) =
      Except.ok
        (match List.find?
            (fun r => firstMatchBool r (some "1.2.3.4".toList) (some 22))
            [microRule false 22 22] with
         | some r => r.is_accept
         | none => true) :=
  claim_C2 { rules := [microRule false 22 22], is_allowed_default := true }
    (some "1.2.3.4".toList) (some 22) (by decide)

/-- C5: For `MicrodescriptorExitPolicy("accept 80,443")`, `can_exit_to`
returns `True` at port 443 and `False` at port 22 for every valid address,
and `str()` of the policy returns exactly `"accept 80,443"`. -/
theorem claim_C5 (mp : MicrodescriptorExitPolicy)
    (h : mkMicroExitPolicy ("accept 80,443".toList) = Except.ok mp)
    (a : Str)
    (ha : is_valid_ip_address a = true ∨ is_valid_ipv6_address a true = true) :
    mp.policy.can_exit_to (some a) (some 443) = Except.ok true ∧
    mp.policy.can_exit_to (some a) (some 22) = Except.ok false ∧
    mp.policyStr = "accept 80,443".toList := by
  have heval : mkMicroExitPolicy ("accept 80,443".toList) =
      Except.ok { policyStr := "accept 80,443".toList, is_accept := true,
                  policy := { rules := [microRule true 80 80, microRule true 443 443],
                              is_allowed_default := false } } := by
    decide
  rw [heval] at h
  simp only [Except.ok.injEq] at h
  subst h
  refine ⟨?_, ?_, rfl⟩
  · have e1 : (microRule true 80 80).is_match (some a) (some 443) =
        Except.ok false := by
      rw [is_match_wildcard _ rfl a ha 443 (by decide)]
      rfl
    have e2 : (microRule true 443 443).is_match (some a) (some 443) =
        Except.ok true := by
      rw [is_match_wildcard _ rfl a ha 443 (by decide)]
      rfl
    show canExitLoop false (some a) (some 443)
        [microRule true 80 80, microRule true 443 443] = Except.ok true
    simp only [canExitLoop, e1, e2]
    rfl
  · have e1 : (microRule true 80 80).is_match (some a) (some 22) =
        Except.ok false := by
      rw [is_match_wildcard _ rfl a ha 22 (by decide)]
      rfl
    have e2 : (microRule true 443 443).is_match (some a) (some 22) =
        Except.ok false := by
      rw [is_match_wildcard _ rfl a ha 22 (by decide)]
      rfl
    show canExitLoop false (some a) (some 22)
        [microRule true 80 80, microRule true 443 443] = Except.ok false
    simp only [canExitLoop, e1, e2]

/-- C5 witness: the theorem applied at the address `75.119.206.243`. -/
theorem claim_C5_witness :
    ExitPolicy.can_exit_to
        { rules := [microRule true 80 80, microRule true 443 443],
          is_allowed_default := false }
        (some "75.119.206.243".toList) (some 443) = Except.ok true := by
  have := claim_C5
    { policyStr := "accept 80,443".toList, is_accept := true,
      policy := { rules := [microRule true 80 80, microRule true 443 443],
                  is_allowed_default := false } }
    (by decide) ("75.119.206.243".toList) (Or.inl (by decide))
  exact this.1

/-- C8: A reply successfully converted as SINGLELINE consists of exactly one
line; `is_ok(strict=False)` holds iff its status code is `250`, and
`is_ok(strict=True)` holds iff the line is exactly `("250", " ", "OK")`. -/
theorem claim_C8 (m : ControlMessage) (code msg : Str)
    (h : singleLineParse m = Except.ok (code, msg)) :
    ∃ divider, m.parsed_content = [(code, divider, msg)] ∧
      (singleLineIsOk m false = true ↔ code = "250".toList) ∧
      (singleLineIsOk m true = true ↔
        (code = "250".toList ∧ divider = " ".toList ∧ msg = "OK".toList)) := by
  cases hm : m.parsed_content with
  | nil =>
    unfold singleLineParse at h
    rw [hm] at h
    simp at h
  | cons hd tl =>
    obtain ⟨c0, d0, m0⟩ := hd
    cases tl with
    | cons hd2 tl2 =>
      unfold singleLineParse at h
      rw [hm] at h
      simp at h
    | nil =>
      unfold singleLineParse at h
      rw [hm] at h
      simp only [List.length_cons, List.length_nil, Nat.zero_add, gt_iff_lt,
        Nat.lt_irrefl, if_false, Nat.one_ne_zero, Except.ok.injEq,
        Prod.mk.injEq] at h
      obtain ⟨rfl, rfl⟩ := h
      refine ⟨d0, rfl, ?_, ?_⟩
      · unfold singleLineIsOk
        rw [hm]
        simp
      · unfold singleLineIsOk
        rw [hm]
        simp only [if_true, List.headD_cons, decide_eq_true_eq, Prod.mk.injEq]

/-- C8 witness: the theorem applied to the one-line `250 OK` reply. -/
theorem claim_C8_witness :
    ∃ divider,
      ControlMessage.parsed_content
          { parsed_content := [("250".toList, " ".toList, "OK".toList)],
            raw_content := [] } =
        [("250".toList, divider, "OK".toList)] ∧
      (singleLineIsOk
          { parsed_content := [("250".toList, " ".toList, "OK".toList)],
            raw_content := [] } false = true ↔ "250".toList = "250".toList) ∧
      (singleLineIsOk
          { parsed_content := [("250".toList, " ".toList, "OK".toList)],
            raw_content := [] } true = true ↔
        ("250".toList = "250".toList ∧ divider = " ".toList ∧
          "OK".toList = "OK".toList)) :=
  claim_C8 { parsed_content := [("250".toList, " ".toList, "OK".toList)],
             raw_content := [] } ("250".toList) ("OK".toList) (by decide)

/-- C10: An `ExitPolicy` constructed directly from rules has its
default-allowed boolean set to `True`, so a probe matching none of its rules
is permitted; `MicrodescriptorExitPolicy` overrides this default to the
negation of its `is_accept` flag. -/
theorem claim_C10 (ss : List Str) (p : ExitPolicy)
    (hp : mkExitPolicy ss = Except.ok p) (a : Option Str) (port : Option Nat)
    (hnm : ∀ r ∈ p.rules, r.is_match a port = Except.ok false) :
    p.is_allowed_default = true ∧ p.can_exit_to a port = Except.ok true ∧
    ∀ (s : Str) (mp : MicrodescriptorExitPolicy),
      mkMicroExitPolicy s = Except.ok mp →
        mp.policy.is_allowed_default = !mp.is_accept := by
  have hd : p.is_allowed_default = true := by
    unfold mkExitPolicy at hp
    split at hp
    · exact absurd hp (by simp)
    · simp only [Except.ok.injEq] at hp
      subst hp
      rfl
  refine ⟨hd, ?_, ?_⟩
  · show canExitLoop p.is_allowed_default a port p.rules = Except.ok true
    rw [canExitLoop_all_false _ _ _ _ hnm, hd]
  · intro s mp h
    have hbody : ∀ acc, mkMicroBody s acc = Except.ok mp →
        mp.policy.is_allowed_default = !mp.is_accept := by
      intro acc hb
      unfold mkMicroBody at hb
      dsimp only at hb
      split at hb
      · exact absurd hb (by simp)
      · split at hb
        · exact absurd hb (by simp)
        · simp only [Except.ok.injEq] at hb
          subst hb
          rfl
    unfold mkMicroExitPolicy at h
    split at h
    · exact hbody true h
    · split at h
      · exact hbody false h
      · exact absurd h (by simp)

/-- C10 witness: the theorem applied to `ExitPolicy("reject *:80")` with the
non-matching probe `("1.2.3.4", 22)` and to
`MicrodescriptorExitPolicy("accept 80,443")`. -/
theorem claim_C10_witness :
    ExitPolicy.is_allowed_default
        { rules := [⟨false, none, AddressType.wildcard, none, none, 80, 80⟩],
          is_allowed_default := true } = true ∧
    ExitPolicy.can_exit_to
        { rules := [⟨false, none, AddressType.wildcard, none, none, 80, 80⟩],
          is_allowed_default := true }
        (some "1.2.3.4".toList) (some 22) = Except.ok true ∧
    ∀ (s : Str) (mp : MicrodescriptorExitPolicy),
      mkMicroExitPolicy s = Except.ok mp →
        mp.policy.is_allowed_default = !mp.is_accept :=
  claim_C10 ["reject *:80".toList]
    { rules := [⟨false, none, AddressType.wildcard, none, none, 80, 80⟩],
      is_allowed_default := true }
    (by decide) (some "1.2.3.4".toList) (some 22)
    (by
      intro r hr
      simp only [List.mem_singleton] at hr
      subst hr
      decide)

/-- C7: Concatenating with single spaces the tokens obtained by repeatedly
calling `pop()` on a line until the cursor is empty reproduces the original
line modulo quoting and whitespace differences (formally: both sides have
the same whitespace-separated words). -/
theorem claim_C7 (line : Str) :
    wordsOf (joinSep ' ' (popAll line)) = wordsOf line := by
  suffices H : ∀ n (line : Str), line.length ≤ n →
      wordsOf (joinSep ' ' (popAll line)) = wordsOf line from
    H line.length line le_rfl
  intro n
  induction n with
  | zero =>
    intro line h
    cases line with
    | nil => rw [popAll_nil]; rfl
    | cons c t => simp at h
  | succ n ih =>
    intro line hlen
    cases line with
    | nil => rw [popAll_nil]; rfl
    | cons c rest =>
      have hpe := parse_entry_plain (c :: rest) (List.cons_ne_nil c rest)
      cases hs : splitFirst ' ' (c :: rest) with
      | none =>
        rw [hs] at hpe
        rw [popAll_cons _ _ hpe, popAll_nil]
        rfl
      | some ab =>
        obtain ⟨a, b⟩ := ab
        rw [hs] at hpe
        rw [popAll_cons _ _ hpe]
        obtain ⟨heq, hnm⟩ := splitFirst_eq hs
        have h1 : (c :: rest).length = a.length + (b.length + 1) := by
          rw [heq]
          simp
        have hlen2 : (pyLstrip b).length ≤ n := by
          have h2 := dropWhile_len_le isPySpace b
          simp only [pyLstrip]
          rw [h1] at hlen
          omega
        by_cases hb : pyLstrip b = []
        · rw [hb, popAll_nil]
          have hwb : wordsOf b = [] := by
            rw [← wordsOf_lstrip, hb, wordsOf_nil]
          have hj : joinSep ' ' [a] = a := rfl
          show wordsOf (joinSep ' ' [a]) = wordsOf (c :: rest)
          rw [hj, heq, wordsOf_append_space, hwb, List.append_nil]
        · have hpop := popAll_ne_nil_of_ne_nil hb
          rw [joinSep_cons ' ' a hpop, wordsOf_append_space,
            ih (pyLstrip b) hlen2, wordsOf_lstrip, heq, wordsOf_append_space]

/-- C4 counterexample: the rule string `accept *:0` is accepted by the
constructor (port zero is allowed, per the tor quirk noted in
`_apply_portspec`), and the resulting rule has `min_port = 0`, violating
`1 ≤ min_port`. -/
theorem claim_C4_counterexample :
    (parseRule ("accept *:0".toList)).map
        (fun r => decide (1 ≤ r.min_port)) = Except.ok false := by
  decide

/-- C4 (amended): For every `ExitPolicyRule` successfully constructed from a
rule string, its ports satisfy `min_port ≤ max_port` and
`max_port ≤ 65535`; `min_port` may be 0 rather than 1 because
`_apply_portspec` deliberately accepts port zero. -/
theorem claim_C4 (s : Str) (r : ExitPolicyRule)
    (h : parseRule s = Except.ok r) :
    r.min_port ≤ r.max_port ∧ r.max_port ≤ 65535 := by
  obtain ⟨as, ps, hs, ha, hp, hacc⟩ := parseRuleBody_ok_inv (parseRule_ok_inv h)
  exact apply_portspec_bounds hp

/-- C4 witness: the theorem applied to `accept *:80`. -/
theorem claim_C4_witness :
    ExitPolicyRule.min_port ⟨true, none, AddressType.wildcard, none, none, 80, 80⟩ ≤
      ExitPolicyRule.max_port ⟨true, none, AddressType.wildcard, none, none, 80, 80⟩ ∧
    ExitPolicyRule.max_port ⟨true, none, AddressType.wildcard, none, none, 80, 80⟩ ≤ 65535 :=
  claim_C4 ("accept *:80".toList)
    ⟨true, none, AddressType.wildcard, none, none, 80, 80⟩ (by decide)

/-- C3: For every rule string accepted by the `ExitPolicyRule` constructor,
the `str()` form of the resulting rule is itself accepted by the
constructor, and the re-parsed rule evaluates identically to the original:
`is_match` agrees on every `(address, port)` probe. -/
theorem claim_C3 {s : Str} {r : ExitPolicyRule}
    (h : parseRule s = Except.ok r) :
    ∃ r2 : ExitPolicyRule, parseRule (ruleStr r) = Except.ok r2 ∧
      ∀ a p, r2.is_match a p = r.is_match a p := by
  obtain ⟨as, ps, hs, ha, hp, hacc⟩ := parseRuleBody_ok_inv (parseRule_ok_inv h)
  exact ⟨normRule r, ruleStr_parses (apply_addrspec_wf ha)
    (apply_portspec_bounds hp), fun a p => is_match_normRule r a p⟩

/-- C3 witness: the theorem applied to `accept *:80`. -/
theorem claim_C3_witness :
    ∃ r2 : ExitPolicyRule,
      parseRule (ruleStr
        ⟨true, none, AddressType.wildcard, none, none, 80, 80⟩) =
        Except.ok r2 ∧
      ∀ a p, r2.is_match a p =
        ExitPolicyRule.is_match
          ⟨true, none, AddressType.wildcard, none, none, 80, 80⟩ a p :=
  @claim_C3 ("accept *:80".toList)
    ⟨true, none, AddressType.wildcard, none, none, 80, 80⟩ (by decide)

end StemSpec
